import Mathlib

set_option maxHeartbeats 1000000
set_option maxRecDepth 4000

/-!
Verification of the BOT_PAGE repository: the configuration resilience layer
(src/utils/safeConfig.js) and the webhook ingestion and dispatch pipeline
(src/index.js), shallowly embedded in Lean 4.

JSON values are modelled by an inductive type; JavaScript semantics relevant
to the embedded code (truthiness, property access on primitives, strict
equality with string literals, optional chaining, array index keys) is made
explicit in small helper functions, each annotated with the JS rule it
encodes.
-/

namespace BotPage

/-- JSON values as produced by JSON.parse: null, booleans, numbers
(modelled as integers -- every numeric literal appearing in this
repository is an integer), strings, arrays, and objects.  Objects are
ordered association lists: JS preserves insertion order for the
non-index keys used throughout this repository. -/
inductive Json where
  | null : Json
  | bool (b : Bool) : Json
  | num (n : Int) : Json
  | str (s : String) : Json
  | arr (elems : List Json) : Json
  | obj (fields : List (String × Json)) : Json

/-- JS truthiness of a JSON value: null, false, 0 and the empty string are
falsy; every object and array (even empty ones) is truthy.  (NaN cannot
arise from JSON.parse.) -/
def isFalsy : Json → Bool
  | .null => true
  | .bool b => !b
  | .num n => n == 0
  | .str s => s == ""
  | .arr _ => false
  | .obj _ => false

def isNullJ : Json → Bool
  | .null => true
  | _ => false

def isJObj : Json → Bool
  | .obj _ => true
  | _ => false

def isDigitCh (c : Char) : Bool := (48 ≤ c.toNat) && (c.toNat ≤ 57)

def digitsVal (cs : List Char) : Nat := cs.foldl (fun a c => a * 10 + (c.toNat - 48)) 0

/-- Canonical JS array index: a string of digits with no leading zero
(except "0" itself) whose value is below 2^32 - 1.  Only such keys address
array elements; any other key set on an array becomes a plain property,
invisible to JSON serialization. -/
def canonIdx (k : String) : Option Nat :=
  match k.toList with
  | [] => none
  | c :: cs =>
      if (c :: cs).all isDigitCh && (!(c == '0') || cs.isEmpty)
          && digitsVal (c :: cs) < 4294967295 then
        some (digitsVal (c :: cs))
      else none

def lookupField : List (String × Json) → String → Option Json
  | [], _ => none
  | (k1, v) :: rest, k => if k1 == k then some v else lookupField rest k

/-- JS property read `v[k]`, returning none for undefined.  Reading a
property of a number or boolean yields undefined; reading an index of a
string yields the one-character string; reading any property of null
throws in JS -- callers of `jget` only reach the null case where the
embedded code has already ruled it out or where undefined and a throw are
not distinguished by any theorem below. -/
def jget : Json → String → Option Json
  | .obj fields, k => lookupField fields k
  | .arr xs, k =>
      (match canonIdx k with
       | some i => xs.get? i
       | none => none)
  | .str s, k =>
      (match canonIdx k with
       | some i =>
           (match s.toList.get? i with
            | some c => some (.str (String.singleton c))
            | none => none)
       | none => none)
  | _, _ => none

def setField : List (String × Json) → String → Json → List (String × Json)
  | [], k, v => [(k, v)]
  | (k1, w) :: rest, k, v =>
      if k1 == k then (k, v) :: rest else (k1, w) :: setField rest k v

/-- Writing past the end of a JS array fills the gap with holes, which
serialize as null. -/
def setIdx (xs : List Json) (i : Nat) (v : Json) : List Json :=
  if i < xs.length then xs.set i v
  else xs ++ List.replicate (i - xs.length) Json.null ++ [v]

/-- JS property write `t[k] = v`.  On an object it sets the field in place
(JS keeps the original position of an overwritten key).  On an array a
canonical index key sets the element; any other key becomes a non-index
property, invisible to the JSON view of the value, which is all the
embedded code ever observes.  A write to a primitive target is silently
ignored (the source files run in sloppy mode). -/
def jset : Json → String → Json → Json
  | .obj fields, k, v => .obj (setField fields k v)
  | .arr xs, k, v =>
      (match canonIdx k with
       | some i => .arr (setIdx xs i v)
       | none => .arr xs)
  | t, _, _ => t

/-- The target reset rule of mergeDeep (safeConfig.js lines 131-133):
`if (!target[key] || typeof target[key] !== 'object') target[key] = {}`.
Arrays pass the check (typeof [] is object and arrays are truthy), so an
array target is merged into; everything else is replaced by {}. -/
def mergeBase : Option Json → Json
  | some (.obj fields) => .obj fields
  | some (.arr xs) => .arr xs
  | _ => .obj []

mutual

/-- One iteration of the `for (const key of Object.keys(source))` loop of
mergeDeep (safeConfig.js lines 125-138): a source value that is a
non-null, non-array object is merged recursively into the (possibly
reset) target slot; any other source value -- arrays and primitives
included -- replaces the target slot outright. -/
def mergeStep (target : Json) (k : String) (sv : Json) : Json :=
  match sv with
  | .obj sfields => jset target k (mergeObjList (mergeBase (jget target k)) sfields)
  | _ => jset target k sv
termination_by structural sv

def mergeObjList (target : Json) (l : List (String × Json)) : Json :=
  match l with
  | [] => target
  | (k, sv) :: rest => mergeObjList (mergeStep target k sv) rest
termination_by structural l

/-- Object.keys of an array enumerates its indices in ascending order. -/
def mergeArrList (target : Json) (i : Nat) (l : List Json) : Json :=
  match l with
  | [] => target
  | sv :: rest => mergeArrList (mergeStep target (toString i) sv) (i + 1) rest
termination_by structural l

end

/-- Object.keys of a string enumerates its character indices; each
character is a one-character string, a primitive, so it always takes the
replacement branch of mergeDeep. -/
def mergeStrList (target : Json) (i : Nat) (l : List Char) : Json :=
  match l with
  | [] => target
  | c :: rest => mergeStrList (jset target (toString i) (.str (String.singleton c))) (i + 1) rest

/-- mergeDeep (safeConfig.js lines 124-140).  `Object.keys(source)` throws
a TypeError when the source is null; on a number or boolean it returns no
keys; on a string or array it returns index keys.  The recursive case only
ever recurses into non-null non-array objects, so the error case is
confined to the top-level call. -/
def mergeDeep (target source : Json) : Except String Json :=
  match source with
  | .null => .error "TypeError: cannot convert null to object"
  | .obj fields => .ok (mergeObjList target fields)
  | .arr xs => .ok (mergeArrList target 0 xs)
  | .str s => .ok (mergeStrList target 0 s.toList)
  | .num _ => .ok target
  | .bool _ => .ok target

/-- minimalTemplate (safeConfig.js lines 28-43). -/
def minimalTemplateFields : List (String × Json) :=
  [("app", .obj [("name", .str "FB Page Bot"), ("version", .str "3.0.0"),
                 ("author", .str "IRFAN")]),
   ("facebook", .obj [("pageAccessToken", .str ""), ("verifyToken", .str "xx"),
                      ("pageId", .str ""), ("appSecret", .str "")]),
   ("server", .obj [("webhookPath", .str "/webhook")])]

def minimalTemplateJson : Json := .obj minimalTemplateFields

/-- fallbackConfig (safeConfig.js lines 52-107). -/
def fallbackConfigFields : List (String × Json) :=
    [("app", .obj [("name", .str "FB Page Bot"), ("version", .str "3.0.0"),
                   ("author", .str "IRFAN")]),
     ("facebook", .obj [("pageAccessToken", .str ""), ("verifyToken", .str "xx"),
                        ("pageId", .str ""), ("appSecret", .str "")]),
     ("bot", .obj [("name", .str "Page Bot"), ("prefix", .str "/"),
                   ("timezone", .str "UTC"), ("autoRestart", .bool false),
                   ("maxRetries", .num 3), ("cooldown", .num 500)]),
     ("logging", .obj [("level", .str "info"), ("retentionDays", .num 7),
                       ("logToFile", .bool false), ("logToConsole", .bool true)]),
     ("security", .obj [("adminUIDs", .arr []), ("allowedDomains", .arr [.str "*"]),
                        ("rateLimit", .obj [("windowMs", .num 900000), ("max", .num 100)])]),
     ("features", .obj [("enableBroadcast", .bool false), ("enableAnalytics", .bool false),
                        ("enableAutoReplies", .bool true), ("enableScheduledPosts", .bool false),
                        ("enableMultiLanguage", .bool false), ("enableWebDashboard", .bool true)]),
     ("pluginDefaults", .obj [("autoInstallDeps", .bool false), ("hotReload", .bool false),
                              ("maxExecutionTime", .num 5000), ("memoryLimitMB", .num 50)]),
     ("server", .obj [("port", .num 3000), ("host", .str "0.0.0.0"),
                      ("webhookPath", .str "/webhook"), ("enableHealthCheck", .bool true),
                      ("enableMetrics", .bool true)])]

def fallbackConfigJson : Json := .obj fallbackConfigFields

/-- The state of config.json on disk: absent, present but unreadable
(readFileSync throws), present with text that JSON.parse rejects, or
present with text that parses to the given value.  A written file always
round-trips: JSON.stringify of a value parses back to it. -/
inductive FileContent where
  | absent : FileContent
  | unreadable : FileContent
  | invalid (text : String) : FileContent
  | valid (v : Json) : FileContent

/-- The file system visible to safeConfig.js: the settings file, the
sibling backup file (content of config.json.bak, none when absent), and
a flag modelling whether writeFileSync throws (e.g. a read-only file
system). -/
structure Disk where
  config : FileContent
  backup : Option String
  writeFails : Bool

/-- ensureConfigFile (safeConfig.js lines 147-156): writes the minimal
template when the file does not exist; a write failure is caught and
logged, leaving the disk unchanged.  Never throws. -/
def ensureConfigFile (d : Disk) : Disk :=
  match d.config with
  | .absent => if d.writeFails then d else { d with config := .valid minimalTemplateJson }
  | _ => d

/-- loadConfigRaw (safeConfig.js lines 167-188).  Read failure (file still
absent after a failed ensure, or unreadable) is caught by the outer catch
and the template is returned.  Parse failure backs the raw text up to
config.json.bak and rewrites the file as the serialized template; a throw
of either write lands in the outer catch with configData still holding the
template.  Never throws. -/
def loadConfigRaw (d : Disk) : Json × Disk :=
  let d1 := ensureConfigFile d
  match d1.config with
  | .absent => (minimalTemplateJson, d1)
  | .unreadable => (minimalTemplateJson, d1)
  | .valid v => (v, d1)
  | .invalid text =>
      if d1.writeFails then (minimalTemplateJson, d1)
      else (minimalTemplateJson,
            { d1 with backup := some text, config := .valid minimalTemplateJson })

/-- getConfig (safeConfig.js lines 196-202): deep-clones fallbackConfig
(JSON.parse of JSON.stringify, the identity on these values) and merges
the raw data on top.  Propagates the TypeError of mergeDeep when the raw
data is null. -/
def getConfig (d : Disk) : Except String Json × Disk :=
  let p := loadConfigRaw d
  (mergeDeep fallbackConfigJson p.1, p.2)

/-- The check helper of getMissingConfigKeys (safeConfig.js lines
217-234).  For a template key holding a (non-null, non-array) object it
recurses into `obj[key] || {}` -- evaluating obj[key] throws when obj is
null; for a leaf key, `obj && obj[key]` is missing when it is the empty
string, null, or undefined.  Keys are collected in DFS order. -/
def checkMissing (tfields : List (String × Json)) (obj : Json) (pfx : String) :
    Except String (List String) :=
  match tfields with
  | [] => .ok []
  | (k, tv) :: rest =>
      let pathKey := if pfx == "" then k else pfx ++ "." ++ k
      match tv with
      | .obj tfs =>
          if isNullJ obj then .error "TypeError: cannot read properties of null"
          else
               let child :=
                 match jget obj k with
                 | some w => if isFalsy w then Json.obj [] else w
                 | none => Json.obj []
               match checkMissing tfs child pathKey with
               | .error e => .error e
               | .ok ms =>
                   match checkMissing rest obj pfx with
                   | .error e => .error e
                   | .ok ms2 => .ok (ms ++ ms2)
      | _ =>
          let val : Option Json := if isFalsy obj then some obj else jget obj k
          let miss :=
            match val with
            | none => true
            | some .null => true
            | some (.str s) => s == ""
            | some _ => false
          (match checkMissing rest obj pfx with
           | .error e => .error e
           | .ok ms => .ok (if miss then pathKey :: ms else ms))

/-- getMissingConfigKeys (safeConfig.js lines 213-237). -/
def getMissingConfigKeys (d : Disk) : Except String (List String) × Disk :=
  let p := loadConfigRaw d
  (checkMissing minimalTemplateFields p.1 "", p.2)

/-- saveConfig (safeConfig.js lines 248-254): writes the serialized
configuration; a write failure is caught and logged.  Never throws. -/
def saveConfig (d : Disk) (c : Json) : Disk :=
  if d.writeFails then d else { d with config := .valid c }

def loadRawV (d : Disk) : Json := (loadConfigRaw d).1

def getConfigV (d : Disk) : Except String Json := (getConfig d).1

def getMissingV (d : Disk) : Except String (List String) := (getMissingConfigKeys d).1

/-! Specification-side vocabulary for the configuration claims: kinds,
schema conformance, dot-paths, and the missing-key characterization.
These definitions follow the wording of the specification and are compared
against the embedded source functions by the theorems below. -/

inductive JKind where
  | knull : JKind
  | kbool : JKind
  | knum : JKind
  | kstr : JKind
  | karr : JKind
  | kobj : JKind
deriving DecidableEq

def kindOf : Json → JKind
  | .null => .knull
  | .bool _ => .kbool
  | .num _ => .knum
  | .str _ => .kstr
  | .arr _ => .karr
  | .obj _ => .kobj

mutual

/-- `conformsTo s v`: every section and leaf present in the schema `s` is
present in `v`; a leaf of the schema must be matched by a value of the
same kind. -/
def conformsTo (s v : Json) : Bool :=
  match s with
  | .obj sfields => confFields sfields v
  | _ => kindOf v == kindOf s
termination_by structural s

def confFields (sfields : List (String × Json)) (v : Json) : Bool :=
  match sfields with
  | [] => isJObj v
  | (k, sv) :: rest =>
      (match jget v k with
       | some u => conformsTo sv u
       | none => false) && confFields rest v
termination_by structural sfields

end

/-- The per-field conformance check of `confFields`, named for the proofs
below. -/
def confAt (w : Option Json) (sv : Json) : Bool :=
  match w with
  | some u => conformsTo sv u
  | none => false

mutual

/-- `compat s r`: the raw value `r` is benign for the schema `s` -- it is
a number, a boolean, or an object whose value at any key of `s` is a
non-array object (recursively benign) where the schema has a section, and
of the schema leaf kind where the schema has a leaf.  Keys outside the
schema are unconstrained. -/
def compat (s r : Json) : Bool :=
  match r with
  | .obj rfields => compatF s rfields
  | .num _ => true
  | .bool _ => true
  | _ => false

def compatAt (sv : Option Json) (rv : Json) : Bool :=
  match sv, rv with
  | none, _ => true
  | some (.obj sfs), .obj rfs => compatF (.obj sfs) rfs
  | some (.obj _), _ => false
  | some u, rv => kindOf rv == kindOf u
termination_by structural rv

def compatF (s : Json) (rfields : List (String × Json)) : Bool :=
  match rfields with
  | [] => true
  | (k, rv) :: rest => compatAt (jget s k) rv && compatF s rest
termination_by structural rfields

end

/-- A dot-path resolved through objects only: the address vocabulary of
the specification (MergedConfig leaves, MissingKeyPath). -/
def lookupPath : Json → List String → Option Json
  | v, [] => some v
  | .obj fields, k :: ks =>
      (match lookupField fields k with
       | some w => lookupPath w ks
       | none => none)
  | _, _ :: _ => none

/-- `pathAbsentCompat r p`: resolving `p` in `r` falls off at a key that is
absent from an object, without ever meeting a non-object value on the way
and without reaching a value at the full path.  Under this condition the
deep merge leaves the default at `p` untouched. -/
def pathAbsentCompat : Json → List String → Bool
  | _, [] => false
  | .obj fields, k :: ks =>
      (match lookupField fields k with
       | some w => pathAbsentCompat w ks
       | none => true)
  | _, _ :: _ => false

mutual

/-- Well-formed JSON value: object keys are duplicate-free at every level,
as guaranteed for values produced by JSON.parse. -/
def jwf : Json → Bool
  | .obj fields => jwfF fields
  | .arr xs => jwfL xs
  | _ => true
termination_by structural j => j

def jwfF : List (String × Json) → Bool
  | [] => true
  | (k, v) :: rest => !(rest.any (fun p => p.1 == k)) && jwf v && jwfF rest
termination_by structural l => l

def jwfL : List Json → Bool
  | [] => true
  | v :: rest => jwf v && jwfL rest
termination_by structural l => l

end

/-- The leaf dot-paths of a template object, in DFS order: a key holding a
(non-null, non-array) object is a section to recurse into, anything else
is a leaf. -/
def leafPathsF : List (String × Json) → List (List String)
  | [] => []
  | (k, tv) :: rest =>
      (match tv with
       | .obj tfs => (leafPathsF tfs).map (fun p => k :: p)
       | _ => [[k]]) ++ leafPathsF rest

def dotJoin : List String → String
  | [] => ""
  | [k] => k
  | k :: ks => k ++ "." ++ dotJoin ks

/-- The specification reading of a missing leaf: the raw value addressed
by the path is the empty string, null, or absent (any prefix of the path
resolving to undefined, including through non-object values, makes the
leaf absent). -/
def jsLeafMissing : Json → List String → Bool
  | _, [] => false
  | raw, [k] =>
      (match jget raw k with
       | none => true
       | some .null => true
       | some (.str s) => s == ""
       | some _ => false)
  | raw, k :: ks =>
      (match jget raw k with
       | none => true
       | some w => jsLeafMissing w ks)

/-- The specification of getMissingConfigKeys: exactly the minimal
template leaf dot-paths whose raw value is empty, null or absent, in
template order. -/
def getMissingSpec (raw : Json) : List String :=
  ((leafPathsF minimalTemplateFields).filter (fun p => jsLeafMissing raw p)).map dotJoin

def noEmptyKeysF : List (String × Json) → Bool
  | [] => true
  | (k, tv) :: rest =>
      !(k == "") &&
      (match tv with
       | .obj tfs => noEmptyKeysF tfs
       | _ => true) && noEmptyKeysF rest

/-- `okSat p e` holds when `e` returned normally with a value satisfying
`p`. -/
def okSat (p : Json → Bool) : Except String Json → Bool
  | .ok v => p v
  | .error _ => false

/-- `okPath e p v` holds when `e` returned normally with a value carrying
`v` at the dot-path `p`. -/
def okPath (e : Except String Json) (p : List String) (v : Json) : Prop :=
  match e with
  | .ok m => lookupPath m p = some v
  | .error _ => False

/-- The path prefixing of the check helper: `pfx ? pfx + "." + key : key`,
extended to a whole relative path. -/
def joinP (pfx : String) (p : List String) : String :=
  if pfx == "" then dotJoin p else pfx ++ "." ++ dotJoin p

def isOkE {ε α : Type} : Except ε α → Bool
  | .ok _ => true
  | .error _ => false

/-! The webhook gateway and event dispatcher (src/index.js). -/

/-- JS truthiness of a possibly-undefined value. -/
def jsTruthyO : Option Json → Bool
  | none => false
  | some w => !isFalsy w

/-- `v && v[k]`: undefined stays undefined, a falsy value is returned
itself, a truthy value is read at `k`. -/
def jsAndGet (v : Option Json) (k : String) : Option Json :=
  match v with
  | none => none
  | some w => if isFalsy w then some w else jget w k

/-- `v || d`: the value when truthy, otherwise the default. -/
def jsOrJ (v : Option Json) (d : Json) : Json :=
  match v with
  | none => d
  | some w => if isFalsy w then d else w

/-- `v` when truthy, as used by `if (event.message)`. -/
def truthyOpt (v : Option Json) : Option Json :=
  match v with
  | none => none
  | some w => if isFalsy w then none else some w

/-- Strict equality `v === lit` of a possibly-undefined value with a
string literal. -/
def strictEqStr (v : Option Json) (lit : String) : Bool :=
  match v with
  | some (.str s) => s == lit
  | _ => false

/-- The outcome of one external handler invocation: a normal return, a
synchronous throw, or an eventually rejected asynchronous result. -/
inductive HOutcome where
  | ok : HOutcome
  | throws (msg : String) : HOutcome
  | rejects (msg : String) : HOutcome

/-- One recorded handler invocation, with the arguments the dispatcher
passes (index.js lines 159-197).  `none` stands for undefined. -/
inductive Call where
  | message (payload : Json) (senderId recipientId : Option Json) (timestamp : Json) : Call
  | postback (payload : Json) (senderId recipientId : Option Json) (timestamp : Json) : Call
  | comment (commentId postId senderId senderName : Option Json)
      (message createdAt : Json) (entryId : Option Json) : Call

/-- Dispatch-loop state: the handler invocations so far in order, the log
lines so far, and the index the next invocation will consult in the
handler-behavior oracle. -/
structure DState where
  calls : List Call
  logs : List String
  idx : Nat

/-- One guarded handler invocation: the call is recorded (the handler is
entered) no matter the outcome; a synchronous throw is caught by the
per-event try/catch and logged with the dispatch message, a rejection is
logged by the attached .catch with the handling message.  Note that a
rejection is logged asynchronously in JS; only the set of log lines, not
their interleaving across events, is faithful here. -/
def invoke (hb : Nat → HOutcome) (st : DState) (c : Call) (syncLog asyncLog : String) : DState :=
  let st1 : DState := { calls := st.calls ++ [c], logs := st.logs, idx := st.idx + 1 }
  match hb st.idx with
  | .ok => st1
  | .throws m => { st1 with logs := st1.logs ++ [syncLog ++ m] }
  | .rejects m => { st1 with logs := st1.logs ++ [asyncLog ++ m] }

/-- `xs?.forEach` semantics: undefined and null short-circuit to no
iteration; an array yields its elements; any other value has no forEach
function and throws. -/
def forEachJs : Option Json → Except String (Option (List Json))
  | none => .ok none
  | some .null => .ok none
  | some (.arr xs) => .ok (some xs)
  | some _ => .error "TypeError: forEach is not a function"

/-- One messaging event (index.js lines 154-175).  Reading
`event.sender` of a null event throws, escaping to the outer catch; the
per-event try only protects the message/postback dispatch. -/
def processMessagingEvent (hb : Nat → HOutcome) (now : Int) (st : DState) (ev : Json) :
    DState × Option String :=
  if isNullJ ev then (st, some "TypeError: cannot read properties of null")
  else
      let senderId := jsAndGet (jget ev "sender") "id"
      let recipientId := jsAndGet (jget ev "recipient") "id"
      let ts := jsOrJ (jget ev "timestamp") (.num now)
      match truthyOpt (jget ev "message") with
      | some m =>
          (invoke hb st (.message m senderId recipientId ts)
             "Error dispatching messaging event: " "Error handling message: ", none)
      | none =>
          match truthyOpt (jget ev "postback") with
          | some p =>
              (invoke hb st (.postback p senderId recipientId ts)
                 "Error dispatching messaging event: " "Error handling postback: ", none)
          | none => (st, none)

/-- The qualification test of a change event (index.js line 179):
`change.field === 'feed' && value.item === 'comment' && value.verb === 'add'`
with `value = change.value || {}`. -/
def qualifiesChange (ch : Json) : Bool :=
  let value := jsOrJ (jget ch "value") (.obj [])
  strictEqStr (jget ch "field") "feed" && strictEqStr (jget value "item") "comment"
    && strictEqStr (jget value "verb") "add"

/-- The comment record and entry id passed to the comment handler
(index.js lines 180-190). -/
def commentCallOf (now : Int) (entryId : Option Json) (ch : Json) : Call :=
  let value := jsOrJ (jget ch "value") (.obj [])
  .comment (jget value "comment_id") (jget value "post_id")
    (jsAndGet (jget value "from") "id") (jsAndGet (jget value "from") "name")
    (jsOrJ (jget value "message") (.str "")) (jsOrJ (jget value "created_time") (.num now))
    entryId

/-- One change event (index.js lines 177-199): dispatched only when the
field is feed, the item is comment and the verb is add; reading
`change.value` of a null change throws to the outer catch. -/
def processChange (hb : Nat → HOutcome) (now : Int) (entryId : Option Json) (st : DState)
    (ch : Json) : DState × Option String :=
  if isNullJ ch then (st, some "TypeError: cannot read properties of null")
  else if qualifiesChange ch then
    (invoke hb st (commentCallOf now entryId ch)
       "Error dispatching comment event: " "Error handling comment: ", none)
  else (st, none)

/-- Runs a per-element step over a list, stopping at the first exception
(a throw inside a forEach callback aborts the iteration and propagates). -/
def foldStop (f : DState → Json → DState × Option String) (st : DState) (l : List Json) :
    DState × Option String :=
  match l with
  | [] => (st, none)
  | x :: xs =>
      match f st x with
      | (st1, some e) => (st1, some e)
      | (st1, none) => foldStop f st1 xs

/-- `xs?.forEach(step)` over one optional sub-list of an entry: absent or
null short-circuits, a non-array throws, an array is iterated until a
callback throws. -/
def stageList (f : DState → Json → DState × Option String) (st : DState) (v : Option Json) :
    DState × Option String :=
  match forEachJs v with
  | .error e => (st, some e)
  | .ok none => (st, none)
  | .ok (some xs) => foldStop f st xs

/-- One entry (index.js lines 152-200): its messaging list, then its
changes list.  Reading `entry.messaging` of a null entry throws; an
exception while iterating messaging skips the changes of this entry and
propagates. -/
def processEntry (hb : Nat → HOutcome) (now : Int) (st : DState) (entry : Json) :
    DState × Option String :=
  if isNullJ entry then (st, some "TypeError: cannot read properties of null")
  else
      match stageList (processMessagingEvent hb now) st (jget entry "messaging") with
      | (st1, some e) => (st1, some e)
      | (st1, none) => stageList (processChange hb now (jget entry "id")) st1 (jget entry "changes")

/-- The observable result of one POST request: the response (sent first,
unconditionally), the handler invocations, the log lines, the value of
lastRuntimeError afterwards (none when it was never assigned), and an
exception escaping the handler after the response (only the unguarded
getConfig call can produce one). -/
structure PostResult where
  resBody : String
  resStatus : Nat
  calls : List Call
  logs : List String
  lastErr : Option String
  uncaught : Option String

/-- The POST webhook receiver (index.js lines 130-205), parameterized by
the configuration load result, the parsed request body, whether the lazy
handler require succeeds, the handler-behavior oracle and the current
time.  The acknowledgment is sent before anything else; the outer
try/catch around decomposition assigns lastRuntimeError; per-event
failures are only logged. -/
def postWebhook (cfgE : Except String Json) (reqBody : Json) (handlersLoad : Bool)
    (hb : Nat → HOutcome) (now : Int) : PostResult :=
  let base : PostResult :=
    { resBody := "EVENT_RECEIVED", resStatus := 200, calls := [], logs := [],
      lastErr := none, uncaught := none }
  match cfgE with
  | .error e => { base with uncaught := some e }
  | .ok config =>
      let fb := jget config "facebook"
      if !jsTruthyO fb || !jsTruthyO (jsAndGet fb "pageAccessToken") then
        { base with logs := ["Skipping webhook event processing: pageAccessToken is missing"] }
      else
        let body := if isFalsy reqBody then Json.obj [] else reqBody
        if !strictEqStr (jget body "object") "page" then base
        else if !handlersLoad then
          { base with logs := ["Failed to load message handlers"] }
        else
          match forEachJs (jget body "entry") with
          | .error e =>
              { base with lastErr := some e,
                          logs := ["Error processing webhook event: " ++ e] }
          | .ok none => base
          | .ok (some entries) =>
              match foldStop (processEntry hb now) { calls := [], logs := [], idx := 0 } entries with
              | (st, none) => { base with calls := st.calls, logs := st.logs }
              | (st, some e) =>
                  { base with calls := st.calls,
                              logs := st.logs ++ ["Error processing webhook event: " ++ e],
                              lastErr := some e }

/-- The POST receiver as wired in index.js: the configuration is reloaded
from disk on every request. -/
def postWebhookOnDisk (d : Disk) (reqBody : Json) (handlersLoad : Bool)
    (hb : Nat → HOutcome) (now : Int) : PostResult :=
  postWebhook (getConfigV d) reqBody handlersLoad hb now

/-- The access-token gate of the POST receiver:
`config.facebook && config.facebook.pageAccessToken` is truthy. -/
def tokenConfigured : Except String Json → Bool
  | .ok config =>
      jsTruthyO (jget config "facebook")
        && jsTruthyO (jsAndGet (jget config "facebook") "pageAccessToken")
  | .error _ => false

structure GetResult where
  resStatus : Nat
  resBody : String

/-- The GET verification handshake (index.js lines 108-127): echoes the
challenge with status 200 exactly when hub.mode is subscribe and
hub.verify_token strictly equals
`(config.facebook && config.facebook.verifyToken) || ''`; otherwise the
fixed 403 Forbidden response.  Query parameters are strings or absent.
Nothing in the guarded block can throw, so the catch branch (which would
send 200 with an empty body) is unreachable. -/
def getWebhook (config : Json) (mode token challenge : Option String) : GetResult :=
  let vt : Json := jsOrJ (jsAndGet (jget config "facebook") "verifyToken") (.str "")
  if mode == some "subscribe"
      && (match vt with
          | .str s => token == some s
          | _ => false) then
    { resStatus := 200, resBody := challenge.getD "" }
  else
    { resStatus := 403, resBody := "Forbidden" }

/-- The configured verify token as the specification reads it: the value
at facebook.verifyToken when it is a string, the empty string when the
path is absent or holds a falsy value; a truthy non-string value can never
match a supplied token. -/
def specTokenMatch (config : Json) (token : Option String) : Bool :=
  match jsOrJ (lookupPath config ["facebook", "verifyToken"]) (.str "") with
  | .str s => token == some s
  | _ => false

/-! Specification-side vocabulary for the dispatch claims. -/

/-- Well-formed messaging/changes field of an entry: absent, null, or an
array of non-null events (a null element would abort decomposition). -/
def wfList : Option Json → Bool
  | none => true
  | some .null => true
  | some (.arr xs) => xs.all (fun v => !isNullJ v)
  | some _ => false

/-- Well-formed entry: non-null, with well-formed messaging and changes
fields. -/
def wfEntry (e : Json) : Bool :=
  !isNullJ e && wfList (jget e "messaging") && wfList (jget e "changes")

/-- The elements a well-formed optional list contributes. -/
def listOfOpt : Option Json → List Json
  | some (.arr xs) => xs
  | _ => []

/-- The specified dispatch of one messaging event (spec 4.3): extract
sender, recipient and timestamp (defaulting to the current time), then
branch on whether the event carries a message or a postback payload. -/
def specMsgCall (now : Int) (ev : Json) : Option Call :=
  let senderId := jsAndGet (jget ev "sender") "id"
  let recipientId := jsAndGet (jget ev "recipient") "id"
  let ts := jsOrJ (jget ev "timestamp") (.num now)
  match truthyOpt (jget ev "message") with
  | some m => some (.message m senderId recipientId ts)
  | none =>
      match truthyOpt (jget ev "postback") with
      | some p => some (.postback p senderId recipientId ts)
      | none => none

/-- The specified dispatch of one change event (spec 4.3): only
feed/comment/add qualifies; extract comment id, post id, commenter id and
name, message text (default empty) and creation time (default now). -/
def specChangeCall (now : Int) (entryId : Option Json) (ch : Json) : Option Call :=
  if qualifiesChange ch then some (commentCallOf now entryId ch) else none

/-- The specified dispatch list of one entry: its messaging events in
order, then its qualifying changes in order, exactly once each. -/
def specEntryCalls (now : Int) (e : Json) : List Call :=
  (listOfOpt (jget e "messaging")).flatMap (fun ev => (specMsgCall now ev).toList)
    ++ (listOfOpt (jget e "changes")).flatMap (fun ch => (specChangeCall now (jget e "id") ch).toList)

/-- The specified dispatch list of a payload: every entry in order. -/
def specCalls (now : Int) (entries : List Json) : List Call :=
  entries.flatMap (specEntryCalls now)

/-- A payload with discriminator page and the given entry list. -/
def mkBody (entries : List Json) : Json :=
  .obj [("object", .str "page"), ("entry", .arr entries)]

/-- Bodies whose decomposition cannot raise before the entry loop: falsy
bodies (replaced by an empty object), bodies without the page
discriminator, and bodies whose entry field is absent or null (the
optional chain short-circuits). -/
def safeShapeBody (reqBody : Json) : Bool :=
  let body := if isFalsy reqBody then Json.obj [] else reqBody
  !strictEqStr (jget body "object") "page"
    || (match jget body "entry" with
        | none => true
        | some .null => true
        | _ => false)

/-- A disk state whose merged configuration carries a truthy page access
token. -/
def dGood : Disk :=
  { config := .valid (.obj [("facebook", .obj [("pageAccessToken", .str "TOKEN"),
                                               ("verifyToken", .str "vt")])]),
    backup := none, writeFails := false }

/-- A settings file whose facebook section is the JSON literal null. -/
def dFacebookNull : Disk :=
  { config := .valid (.obj [("facebook", .null)]), backup := none, writeFails := false }

/-- A settings file whose app section is the JSON number 5. -/
def dAppNum : Disk :=
  { config := .valid (.obj [("app", .num 5)]), backup := none, writeFails := false }

/-! Helper lemmas about the dispatch pipeline. -/

theorem invoke_calls (hb : Nat → HOutcome) (st : DState) (c : Call) (a b : String) :
    (invoke hb st c a b).calls = st.calls ++ [c] := by
  cases h : hb st.idx <;> simp [invoke, h]

theorem pme_spec (hb : Nat → HOutcome) (now : Int) (st : DState) (ev : Json)
    (h : isNullJ ev = false) :
    (processMessagingEvent hb now st ev).2 = none ∧
      (processMessagingEvent hb now st ev).1.calls
        = st.calls ++ (specMsgCall now ev).toList := by
  cases hm : truthyOpt (jget ev "message") with
  | some m => simp [processMessagingEvent, specMsgCall, h, hm, invoke_calls]
  | none =>
      cases hp : truthyOpt (jget ev "postback") with
      | some p => simp [processMessagingEvent, specMsgCall, h, hm, hp, invoke_calls]
      | none => simp [processMessagingEvent, specMsgCall, h, hm, hp]

theorem pch_spec (hb : Nat → HOutcome) (now : Int) (eid : Option Json) (st : DState)
    (ch : Json) (h : isNullJ ch = false) :
    (processChange hb now eid st ch).2 = none ∧
      (processChange hb now eid st ch).1.calls
        = st.calls ++ (specChangeCall now eid ch).toList := by
  cases hq : qualifiesChange ch <;>
    simp [processChange, specChangeCall, h, hq, invoke_calls]

theorem foldStop_spec (f : DState → Json → DState × Option String) (g : Json → List Call)
    (l : List Json)
    (hf : ∀ s x, x ∈ l → (f s x).2 = none ∧ (f s x).1.calls = s.calls ++ g x) :
    ∀ st, (foldStop f st l).2 = none ∧
      (foldStop f st l).1.calls = st.calls ++ l.flatMap g := by
  induction l with
  | nil => intro st; simp [foldStop]
  | cons x xs ih =>
      intro st
      obtain ⟨h1, h2⟩ := hf st x (by simp)
      rcases hfx : f st x with ⟨st1, e1⟩
      rw [hfx] at h1 h2
      simp only at h1 h2
      subst h1
      have ih2 := ih (fun s y hy => hf s y (by simp [hy])) st1
      constructor
      · simpa [foldStop, hfx] using ih2.1
      · simp [foldStop, hfx, ih2.2, h2, List.append_assoc]

theorem forEachJs_wfList (v : Option Json) (h : wfList v = true) :
    (forEachJs v = .ok none ∧ listOfOpt v = []) ∨ forEachJs v = .ok (some (listOfOpt v)) := by
  match v with
  | none => exact Or.inl ⟨rfl, rfl⟩
  | some .null => exact Or.inl ⟨rfl, rfl⟩
  | some (.arr xs) => exact Or.inr rfl
  | some (.bool _) => simp [wfList] at h
  | some (.num _) => simp [wfList] at h
  | some (.str _) => simp [wfList] at h
  | some (.obj _) => simp [wfList] at h

theorem wfList_elems (v : Option Json) (h : wfList v = true) :
    ∀ x ∈ listOfOpt v, isNullJ x = false := by
  match v with
  | none => intro x hx; simp [listOfOpt] at hx
  | some .null => intro x hx; simp [listOfOpt] at hx
  | some (.arr xs) =>
      intro x hx
      have h2 : ∀ y ∈ xs, isNullJ y = false := by simpa [wfList] using h
      exact h2 x (by simpa [listOfOpt] using hx)
  | some (.bool _) => simp [wfList] at h
  | some (.num _) => simp [wfList] at h
  | some (.str _) => simp [wfList] at h
  | some (.obj _) => simp [wfList] at h

theorem stageList_spec (f : DState → Json → DState × Option String) (g : Json → List Call)
    (v : Option Json) (hwf : wfList v = true)
    (hf : ∀ s x, x ∈ listOfOpt v → (f s x).2 = none ∧ (f s x).1.calls = s.calls ++ g x) :
    ∀ st, (stageList f st v).2 = none ∧
      (stageList f st v).1.calls = st.calls ++ (listOfOpt v).flatMap g := by
  intro st
  rcases forEachJs_wfList v hwf with ⟨hfm, hlm⟩ | hfm
  · simp [stageList, hfm, hlm]
  · have hfold := foldStop_spec f g (listOfOpt v) hf st
    simp [stageList, hfm, hfold.1, hfold.2]

theorem pe_spec (hb : Nat → HOutcome) (now : Int) (st : DState) (e : Json)
    (h : wfEntry e = true) :
    (processEntry hb now st e).2 = none ∧
      (processEntry hb now st e).1.calls = st.calls ++ specEntryCalls now e := by
  have h' := h
  simp only [wfEntry, Bool.and_eq_true, Bool.not_eq_true'] at h'
  obtain ⟨⟨hn, hm⟩, hc⟩ := h'
  have hstage1 := stageList_spec (processMessagingEvent hb now)
    (fun ev => (specMsgCall now ev).toList) (jget e "messaging") hm
    (fun s x hx => pme_spec hb now s x (wfList_elems _ hm x hx)) st
  rcases hs1 : stageList (processMessagingEvent hb now) st (jget e "messaging") with ⟨st1, e1⟩
  rw [hs1] at hstage1
  simp only at hstage1
  obtain ⟨he1, hc1⟩ := hstage1
  subst he1
  have hstage2 := stageList_spec (processChange hb now (jget e "id"))
    (fun ch => (specChangeCall now (jget e "id") ch).toList) (jget e "changes") hc
    (fun s x hx => pch_spec hb now (jget e "id") s x (wfList_elems _ hc x hx)) st1
  rcases hs2 : stageList (processChange hb now (jget e "id")) st1 (jget e "changes")
    with ⟨st2, e2⟩
  rw [hs2] at hstage2
  simp only at hstage2
  obtain ⟨he2, hc2⟩ := hstage2
  subst he2
  simp [processEntry, hn, hs1, hs2, hc2, hc1, specEntryCalls, List.append_assoc]

/-- The POST pipeline on a page payload with well-formed entries: the
handler invocations are exactly the specified ones, independent of the
handler outcomes, and neither lastRuntimeError nor an escaping exception
is produced. -/
theorem postPipeline_calls (d : Disk) (entries : List Json) (hb : Nat → HOutcome) (now : Int)
    (htok : tokenConfigured (getConfigV d) = true)
    (hwf : entries.all wfEntry = true) :
    (postWebhookOnDisk d (mkBody entries) true hb now).calls = specCalls now entries ∧
    (postWebhookOnDisk d (mkBody entries) true hb now).lastErr = none ∧
    (postWebhookOnDisk d (mkBody entries) true hb now).uncaught = none := by
  cases hcfg : getConfigV d with
  | error e => rw [hcfg] at htok; simp [tokenConfigured] at htok
  | ok config =>
      rw [hcfg] at htok
      simp only [tokenConfigured, Bool.and_eq_true] at htok
      obtain ⟨ht1, ht2⟩ := htok
      have hfold := foldStop_spec (processEntry hb now) (specEntryCalls now) entries
        (fun s x hx => pe_spec hb now s x (List.all_eq_true.mp hwf x hx))
        { calls := [], logs := [], idx := 0 }
      rcases hfs : foldStop (processEntry hb now) { calls := [], logs := [], idx := 0 } entries
        with ⟨st, e1⟩
      rw [hfs] at hfold
      simp only at hfold
      obtain ⟨he1, hcalls⟩ := hfold
      subst he1
      have hgate : (!jsTruthyO (jget config "facebook")
          || !jsTruthyO (jsAndGet (jget config "facebook") "pageAccessToken")) = false := by
        simp [ht1, ht2]
      have hfb : isFalsy (mkBody entries) = false := by simp [mkBody, isFalsy]
      have hobj : strictEqStr (jget (mkBody entries) "object") "page" = true := by
        simp [mkBody, jget, lookupField, strictEqStr]
      have hentry : jget (mkBody entries) "entry" = some (.arr entries) := by
        simp [mkBody, jget, lookupField]
      simp only [postWebhookOnDisk, postWebhook, hcfg]
      simp [hgate, hfb, hobj, hentry, forEachJs, hfs, hcalls, specCalls]

/-- Claim C3: for a POST payload with discriminator page and the access
token configured, every Entry, MessagingEvent and qualifying ChangeEvent
of a well-formed payload is dispatched exactly once, in payload order --
the invocation list equals the specified one and does not depend on the
handler-behavior oracle `hb`, so a throwing or rejecting handler never
prevents the other invocations; no error escapes and lastRuntimeError
stays unset. -/
theorem dispatch_every_event_exactly_once (d : Disk) (entries : List Json) (hb : Nat → HOutcome)
    (now : Int) (htok : tokenConfigured (getConfigV d) = true)
    (hwf : entries.all wfEntry = true) :
    (postWebhookOnDisk d (mkBody entries) true hb now).calls = specCalls now entries ∧
    (postWebhookOnDisk d (mkBody entries) true hb now).lastErr = none ∧
    (postWebhookOnDisk d (mkBody entries) true hb now).uncaught = none :=
  postPipeline_calls d entries hb now htok hwf

/-- Witness for C3: two messaging events (a message and a postback) and
one qualifying comment change in one entry dispatch exactly three handler
invocations in payload order, even though the second invocation throws. -/
theorem dispatch_every_event_exactly_once_witness :
    (postWebhookOnDisk dGood (mkBody [.obj [
        ("id", .str "PAGE1"),
        ("messaging", .arr [
          .obj [("sender", .obj [("id", .str "U1")]), ("recipient", .obj [("id", .str "P1")]),
                ("timestamp", .num 111), ("message", .obj [("text", .str "hello")])],
          .obj [("sender", .obj [("id", .str "U2")]), ("recipient", .obj [("id", .str "P1")]),
                ("postback", .obj [("payload", .str "PB")])]]),
        ("changes", .arr [
          .obj [("field", .str "feed"),
                ("value", .obj [("item", .str "comment"), ("verb", .str "add"),
                                ("comment_id", .str "c1"), ("post_id", .str "p1"),
                                ("from", .obj [("id", .str "U3"), ("name", .str "Ann")]),
                                ("message", .str "nice")])]])]])
      true (fun i => if i == 1 then HOutcome.throws "boom" else .ok) 777).calls
      = [Call.message (.obj [("text", .str "hello")]) (some (.str "U1")) (some (.str "P1"))
           (.num 111),
         Call.postback (.obj [("payload", .str "PB")]) (some (.str "U2")) (some (.str "P1"))
           (.num 777),
         Call.comment (some (.str "c1")) (some (.str "p1")) (some (.str "U3"))
           (some (.str "Ann")) (.str "nice") (.num 777) (some (.str "PAGE1"))] ∧
    (postWebhookOnDisk dGood (mkBody [.obj [
        ("id", .str "PAGE1"),
        ("messaging", .arr [
          .obj [("sender", .obj [("id", .str "U1")]), ("recipient", .obj [("id", .str "P1")]),
                ("timestamp", .num 111), ("message", .obj [("text", .str "hello")])],
          .obj [("sender", .obj [("id", .str "U2")]), ("recipient", .obj [("id", .str "P1")]),
                ("postback", .obj [("payload", .str "PB")])]]),
        ("changes", .arr [
          .obj [("field", .str "feed"),
                ("value", .obj [("item", .str "comment"), ("verb", .str "add"),
                                ("comment_id", .str "c1"), ("post_id", .str "p1"),
                                ("from", .obj [("id", .str "U3"), ("name", .str "Ann")]),
                                ("message", .str "nice")])]])]])
      true (fun i => if i == 1 then HOutcome.throws "boom" else .ok) 777).lastErr = none := by
  have h := dispatch_every_event_exactly_once dGood
    [.obj [
        ("id", .str "PAGE1"),
        ("messaging", .arr [
          .obj [("sender", .obj [("id", .str "U1")]), ("recipient", .obj [("id", .str "P1")]),
                ("timestamp", .num 111), ("message", .obj [("text", .str "hello")])],
          .obj [("sender", .obj [("id", .str "U2")]), ("recipient", .obj [("id", .str "P1")]),
                ("postback", .obj [("payload", .str "PB")])]]),
        ("changes", .arr [
          .obj [("field", .str "feed"),
                ("value", .obj [("item", .str "comment"), ("verb", .str "add"),
                                ("comment_id", .str "c1"), ("post_id", .str "p1"),
                                ("from", .obj [("id", .str "U3"), ("name", .str "Ann")]),
                                ("message", .str "nice")])]])]]
    (fun i => if i == 1 then HOutcome.throws "boom" else .ok) 777
    (by simp [tokenConfigured, getConfigV, getConfig, loadConfigRaw, ensureConfigFile, mergeDeep,
              mergeObjList, mergeStep, mergeBase, jget, jset, lookupField, setField, dGood,
              jsTruthyO, jsAndGet, isFalsy, fallbackConfigJson])
    (by decide)
  exact ⟨h.1.trans (by rfl), h.2.1⟩

/-- Claim C4 (code bug evidence): a messaging event whose handler
invocation fails asynchronously is logged, but lastRuntimeError is left
unset -- the per-event catch blocks (index.js 162-196) only log, and the
outer catch that assigns lastRuntimeError (index.js 201-204) never sees
handler failures.  The claim (and the comment at index.js 38-39) says the
failure is recorded in the RuntimeStatusSink; the code does not do so. -/
theorem handler_failure_not_recorded_in_sink :
    (postWebhookOnDisk dGood
        (mkBody [.obj [("messaging", .arr [.obj [("message", .obj [("text", .str "hi")])]])]])
        true (fun _ => .rejects "boom") 7).calls
      = [Call.message (.obj [("text", .str "hi")]) none none (.num 7)] ∧
    (postWebhookOnDisk dGood
        (mkBody [.obj [("messaging", .arr [.obj [("message", .obj [("text", .str "hi")])]])]])
        true (fun _ => .rejects "boom") 7).logs = ["Error handling message: boom"] ∧
    (postWebhookOnDisk dGood
        (mkBody [.obj [("messaging", .arr [.obj [("message", .obj [("text", .str "hi")])]])]])
        true (fun _ => .rejects "boom") 7).lastErr = none := by
  refine ⟨?_, ?_, ?_⟩ <;>
  simp [postWebhookOnDisk, postWebhook, getConfigV, getConfig, loadConfigRaw, ensureConfigFile,
        mergeDeep, mergeObjList, mergeStep, mergeBase, jget, jset, lookupField, setField, dGood,
        jsTruthyO, jsAndGet, isFalsy, fallbackConfigJson, mkBody, strictEqStr, forEachJs,
        foldStop, processEntry, processMessagingEvent, processChange, stageList, isNullJ,
        truthyOpt, jsOrJ, invoke]

/-- Claim C9 (amended): every POST is acknowledged with the fixed body and
success status; when the body is empty, falsy, lacks the page
discriminator, or lacks an entry list, no handler is invoked and
lastRuntimeError stays unset.  (A body whose entry decomposition raises,
such as entry containing null, is instead recorded in lastRuntimeError;
see the counterexample.) -/
theorem post_ack_and_sink_safe (d : Disk) (reqBody : Json) (hl : Bool) (hb : Nat → HOutcome)
    (now : Int) (hsafe : safeShapeBody reqBody = true) :
    (postWebhookOnDisk d reqBody hl hb now).resBody = "EVENT_RECEIVED" ∧
    (postWebhookOnDisk d reqBody hl hb now).resStatus = 200 ∧
    (postWebhookOnDisk d reqBody hl hb now).lastErr = none ∧
    (postWebhookOnDisk d reqBody hl hb now).calls = [] := by
  cases hcfg : getConfigV d with
  | error e => simp [postWebhookOnDisk, postWebhook, hcfg]
  | ok config =>
      simp only [postWebhookOnDisk, postWebhook, hcfg]
      cases hgate : (!jsTruthyO (jget config "facebook")
          || !jsTruthyO (jsAndGet (jget config "facebook") "pageAccessToken")) with
      | true => simp [hgate]
      | false =>
          simp only [safeShapeBody, Bool.or_eq_true, Bool.not_eq_true'] at hsafe
          rcases hsafe with hobj | hentry
          · simp [hgate, hobj]
          · cases hpage : strictEqStr (jget (if isFalsy reqBody then Json.obj [] else reqBody)
                "object") "page" with
            | false => simp [hgate, hpage]
            | true =>
                rcases hje : jget (if isFalsy reqBody then Json.obj [] else reqBody) "entry"
                  with _ | w
                · cases hl <;> simp [hgate, hpage, hje, forEachJs]
                · rw [hje] at hentry
                  cases w <;> simp at hentry
                  cases hl <;> simp [hgate, hpage, hje, forEachJs]

/-- Counterexample for C9: a malformed body (entry list containing null)
is acknowledged, but the decomposition exception is recorded in
lastRuntimeError, so the sink does not remain unset for every malformed
body. -/
theorem post_malformed_entry_sets_sink_cex :
    (postWebhookOnDisk dGood (mkBody [Json.null]) true (fun _ => .ok) 0).lastErr
      = some "TypeError: cannot read properties of null" ∧
    (postWebhookOnDisk dGood (mkBody [Json.null]) true (fun _ => .ok) 0).resBody
      = "EVENT_RECEIVED" ∧
    (postWebhookOnDisk dGood (mkBody [Json.null]) true (fun _ => .ok) 0).resStatus = 200 := by
  refine ⟨?_, ?_, ?_⟩ <;>
  simp [postWebhookOnDisk, postWebhook, getConfigV, getConfig, loadConfigRaw, ensureConfigFile,
        mergeDeep, mergeObjList, mergeStep, mergeBase, jget, jset, lookupField, setField, dGood,
        jsTruthyO, jsAndGet, isFalsy, fallbackConfigJson, mkBody, strictEqStr, forEachJs,
        foldStop, processEntry, processMessagingEvent, processChange, stageList, isNullJ,
        truthyOpt, jsOrJ, invoke]

/-- Witness for C9 (amended): an empty (null) body is acknowledged and
leaves the sink unset with no handler invoked. -/
theorem post_ack_and_sink_safe_witness :
    (postWebhookOnDisk dGood .null true (fun _ => .ok) 0).resBody = "EVENT_RECEIVED" ∧
    (postWebhookOnDisk dGood .null true (fun _ => .ok) 0).resStatus = 200 ∧
    (postWebhookOnDisk dGood .null true (fun _ => .ok) 0).lastErr = none ∧
    (postWebhookOnDisk dGood .null true (fun _ => .ok) 0).calls = [] :=
  post_ack_and_sink_safe dGood .null true (fun _ => .ok) 0 (by decide)

/-- Claim C10 (amended): for a messaging event, the message handler alone
is invoked when the message field holds a truthy value -- even when a
postback field is also present; the postback handler is invoked only when
the message field is absent or falsy and the postback field is truthy;
when neither field holds a truthy value, no handler is invoked.  (The
branch is on truthiness, not field presence: see the counterexample with
message 0.) -/
theorem messaging_branch_priority (d : Disk) (ev : Json) (hb : Nat → HOutcome) (now : Int)
    (htok : tokenConfigured (getConfigV d) = true) (hn : isNullJ ev = false) :
    (postWebhookOnDisk d (mkBody [.obj [("messaging", .arr [ev])]]) true hb now).calls
      = (match truthyOpt (jget ev "message") with
         | some m => [Call.message m (jsAndGet (jget ev "sender") "id")
             (jsAndGet (jget ev "recipient") "id") (jsOrJ (jget ev "timestamp") (.num now))]
         | none =>
             (match truthyOpt (jget ev "postback") with
              | some p => [Call.postback p (jsAndGet (jget ev "sender") "id")
                  (jsAndGet (jget ev "recipient") "id") (jsOrJ (jget ev "timestamp") (.num now))]
              | none => [])) := by
  have hwf1 : wfEntry (.obj [("messaging", .arr [ev])]) = true := by
    simp only [wfEntry, Bool.and_eq_true, Bool.not_eq_true']
    refine ⟨⟨rfl, ?_⟩, ?_⟩
    · simp [jget, lookupField, wfList, hn]
    · simp [jget, lookupField, wfList]
  have h := postPipeline_calls d [.obj [("messaging", .arr [ev])]] hb now htok
    (by simp [hwf1])
  rw [h.1]
  simp only [specCalls, specEntryCalls, List.flatMap_cons, List.flatMap_nil]
  have hm : jget (Json.obj [("messaging", .arr [ev])]) "messaging" = some (.arr [ev]) := by
    simp [jget, lookupField]
  have hc : jget (Json.obj [("messaging", .arr [ev])]) "changes" = none := by
    simp [jget, lookupField]
  rw [hm, hc]
  simp only [listOfOpt, List.flatMap_cons, List.flatMap_nil, List.append_nil, specMsgCall]
  cases hmm : truthyOpt (jget ev "message") with
  | some m => simp
  | none =>
      cases hpp : truthyOpt (jget ev "postback") with
      | some p => simp
      | none => simp

/-- Counterexample for C10: a messaging event carrying both a message
field (with the falsy value 0) and a postback field invokes the postback
handler, not only the message handler. -/
theorem message_and_postback_fields_cex :
    (postWebhookOnDisk dGood
        (mkBody [.obj [("messaging", .arr [.obj [("message", .num 0),
                                                 ("postback", .obj [("payload", .str "PB")])]])]])
        true (fun _ => .ok) 5).calls
      = [Call.postback (.obj [("payload", .str "PB")]) none none (.num 5)] := by
  simp [postWebhookOnDisk, postWebhook, getConfigV, getConfig, loadConfigRaw, ensureConfigFile,
        mergeDeep, mergeObjList, mergeStep, mergeBase, jget, jset, lookupField, setField, dGood,
        jsTruthyO, jsAndGet, isFalsy, fallbackConfigJson, mkBody, strictEqStr, forEachJs,
        foldStop, processEntry, processMessagingEvent, processChange, stageList, isNullJ,
        truthyOpt, jsOrJ, invoke]

/-- Witness for C10 (amended): an event with a truthy message and a
postback invokes only the message handler. -/
theorem messaging_branch_priority_witness :
    (postWebhookOnDisk dGood
        (mkBody [.obj [("messaging", .arr [.obj [("message", .obj [("text", .str "m")]),
                                                 ("postback", .obj [("payload", .str "p")])]])]])
        true (fun _ => .ok) 9).calls
      = [Call.message (.obj [("text", .str "m")]) none none (.num 9)] := by
  have h := messaging_branch_priority dGood
    (.obj [("message", .obj [("text", .str "m")]), ("postback", .obj [("payload", .str "p")])])
    (fun _ => .ok) 9
    (by simp [tokenConfigured, getConfigV, getConfig, loadConfigRaw, ensureConfigFile, mergeDeep,
              mergeObjList, mergeStep, mergeBase, jget, jset, lookupField, setField, dGood,
              jsTruthyO, jsAndGet, isFalsy, fallbackConfigJson])
    (by decide)
  exact h.trans (by rfl)

/-- The effective verify token of the GET handler,
`(config.facebook && config.facebook.verifyToken) || ''`, equals the
specification reading: the value at the facebook.verifyToken dot-path,
with the empty string for an absent or falsy value. -/
theorem effVerifyToken_eq (config : Json) :
    jsOrJ (jsAndGet (jget config "facebook") "verifyToken") (.str "")
      = jsOrJ (lookupPath config ["facebook", "verifyToken"]) (.str "") := by
  have hci : canonIdx "verifyToken" = none := by decide
  have hcf : canonIdx "facebook" = none := by decide
  cases config with
  | null => simp [jget, lookupPath, jsAndGet, jsOrJ]
  | bool b => simp [jget, lookupPath, jsAndGet, jsOrJ]
  | num n => simp [jget, lookupPath, jsAndGet, jsOrJ]
  | str s => simp [jget, lookupPath, jsAndGet, jsOrJ, hcf]
  | arr xs => simp [jget, lookupPath, jsAndGet, jsOrJ, hcf]
  | obj fields =>
      simp only [jget, lookupPath]
      cases hf : lookupField fields "facebook" with
      | none => simp [jsAndGet, jsOrJ]
      | some w =>
          cases w with
          | null => simp [jsAndGet, jsOrJ, isFalsy, lookupPath]
          | bool b => cases b <;> simp [jsAndGet, jsOrJ, isFalsy, lookupPath, jget]
          | num n =>
              cases hn : (n == 0) <;>
                simp [jsAndGet, jsOrJ, isFalsy, lookupPath, jget, hn]
          | str s =>
              cases hs : (s == "") <;>
                simp [jsAndGet, jsOrJ, isFalsy, lookupPath, jget, hs, hci]
          | arr ys => simp [jsAndGet, jsOrJ, isFalsy, lookupPath, jget, hci]
          | obj fs2 =>
              simp only [jsAndGet, isFalsy, Bool.false_eq_true, if_false, jget, lookupPath]
              cases hg : lookupField fs2 "verifyToken" with
              | none => simp
              | some u => simp [lookupPath]

/-- Claim C5: a verification GET succeeds -- echoing the supplied
challenge (empty when absent) with status 200 -- exactly when the mode is
subscribe and the supplied token strictly equals the configured verify
token (facebook.verifyToken when it is a string, the empty string when
absent or falsy; a truthy non-string configured value can never match);
every other combination yields the single fixed 403 Forbidden response.
Nothing in the handler can throw, so the catch branch is unreachable and
verification never surfaces an exception to the transport. -/
theorem webhook_verification_exact (config : Json) (mode token challenge : Option String) :
    getWebhook config mode token challenge
      = if mode == some "subscribe" && specTokenMatch config token then
          { resStatus := 200, resBody := challenge.getD "" }
        else { resStatus := 403, resBody := "Forbidden" } := by
  simp only [getWebhook, specTokenMatch, effVerifyToken_eq]

/-- Claim C2 (code bug evidence): when the settings file contains the
valid JSON text null, getConfig throws a TypeError (Object.keys(null) in
mergeDeep) and getMissingConfigKeys throws a TypeError (obj[key] on the
null raw value in check), contradicting the never-throws contract stated
both by the specification and by the module header comment of
safeConfig.js. -/
theorem getConfig_throws_on_null_file :
    getConfigV { config := .valid .null, backup := none, writeFails := false }
      = .error "TypeError: cannot convert null to object" ∧
    getMissingV { config := .valid .null, backup := none, writeFails := false }
      = .error "TypeError: cannot read properties of null" := by
  constructor
  · rfl
  · simp [getMissingV, getMissingConfigKeys, loadConfigRaw, ensureConfigFile, checkMissing,
          minimalTemplateFields, isNullJ]

/-- Claim C8: loading a settings file holding unparseable text (with a
writable disk) backs the original bytes up to config.json.bak, rewrites
the live file as the serialized MinimalTemplate, and returns
MinimalTemplate deep-merged on top of FallbackDefaults. -/
theorem corrupt_file_quarantined (text : String) (bak0 : Option String) :
    (getConfig { config := .invalid text, backup := bak0, writeFails := false }).1
      = mergeDeep fallbackConfigJson minimalTemplateJson ∧
    (getConfig { config := .invalid text, backup := bak0, writeFails := false }).2.backup
      = some text ∧
    (getConfig { config := .invalid text, backup := bak0, writeFails := false }).2.config
      = .valid minimalTemplateJson :=
  ⟨rfl, rfl, rfl⟩

/-! Helper lemmas about association lists, property writes, and schema
conformance, toward the deep-merge claims. -/

theorem confFields_cons_eq (k : String) (sv : Json) (rest : List (String × Json)) (v : Json) :
    confFields ((k, sv) :: rest) v = (confAt (jget v k) sv && confFields rest v) := by
  cases h : jget v k <;> simp [confFields, confAt, h]

theorem isJObj_ex (t : Json) (h : isJObj t = true) : ∃ tf, t = .obj tf := by
  cases t <;> simp_all [isJObj]

theorem isJObj_jset (t : Json) (k : String) (v : Json) (h : isJObj t = true) :
    isJObj (jset t k v) = true := by
  obtain ⟨tf, rfl⟩ := isJObj_ex t h
  simp [jset, isJObj]

theorem kindOf_jset : ∀ (t : Json) (k : String) (v : Json), kindOf (jset t k v) = kindOf t
  | .null, _, _ => rfl
  | .bool _, _, _ => rfl
  | .num _, _, _ => rfl
  | .str _, _, _ => rfl
  | .obj _, _, _ => rfl
  | .arr _, k, _ => by cases h : canonIdx k <;> simp [jset, kindOf, h]

theorem kindOf_mergeStep (t : Json) (k : String) (sv : Json) :
    kindOf (mergeStep t k sv) = kindOf t := by
  cases sv <;> simp [mergeStep, kindOf_jset]

theorem kindOf_mergeObjList (l : List (String × Json)) :
    ∀ t, kindOf (mergeObjList t l) = kindOf t := by
  induction l with
  | nil => intro t; simp [mergeObjList]
  | cons p rest ih =>
      intro t
      obtain ⟨k, sv⟩ := p
      simp only [mergeObjList]
      rw [ih, kindOf_mergeStep]

theorem mergeStep_obj_eq (tf : List (String × Json)) (k : String) (sv : Json) :
    ∃ v, mergeStep (.obj tf) k sv = .obj (setField tf k v) := by
  cases sv with
  | null => exact ⟨.null, by simp [mergeStep, jset]⟩
  | bool b => exact ⟨.bool b, by simp [mergeStep, jset]⟩
  | num n => exact ⟨.num n, by simp [mergeStep, jset]⟩
  | str s => exact ⟨.str s, by simp [mergeStep, jset]⟩
  | arr xs => exact ⟨.arr xs, by simp [mergeStep, jset]⟩
  | obj sfields =>
      exact ⟨mergeObjList (mergeBase (jget (.obj tf) k)) sfields, by simp [mergeStep, jset]⟩

theorem mergeObjList_obj_ex (l : List (String × Json)) :
    ∀ tf, ∃ g, mergeObjList (.obj tf) l = .obj g := by
  induction l with
  | nil => intro tf; exact ⟨tf, by simp [mergeObjList]⟩
  | cons p rest ih =>
      intro tf
      obtain ⟨k, sv⟩ := p
      obtain ⟨v, hv⟩ := mergeStep_obj_eq tf k sv
      obtain ⟨g, hg⟩ := ih (setField tf k v)
      exact ⟨g, by simp only [mergeObjList]; rw [hv, hg]⟩

theorem lookupField_setField_self (l : List (String × Json)) (k : String) (v : Json) :
    lookupField (setField l k v) k = some v := by
  induction l with
  | nil => simp [setField, lookupField]
  | cons p rest ih =>
      obtain ⟨k1, w⟩ := p
      cases hk : (k1 == k) with
      | true => simp [setField, hk, lookupField]
      | false => simp [setField, hk, lookupField, ih]

theorem lookupField_setField_ne (l : List (String × Json)) (k k' : String) (v : Json)
    (h : (k' == k) = false) :
    lookupField (setField l k v) k' = lookupField l k' := by
  have h1 : ¬(k' = k) := by simpa using h
  have h2 : (k == k') = false := by simp [Ne.symm h1]
  induction l with
  | nil => simp [setField, lookupField, h2]
  | cons p rest ih =>
      obtain ⟨k1, w⟩ := p
      cases hk : (k1 == k) with
      | true =>
          have : k1 = k := by simpa using hk
          subst this
          simp [setField, lookupField, h2, hk]
      | false => simp [setField, hk, lookupField, ih]

theorem lookupField_mem_any (l : List (String × Json)) (k : String) (sv : Json)
    (h : lookupField l k = some sv) : (l.any (fun p => p.1 == k)) = true := by
  induction l with
  | nil => simp [lookupField] at h
  | cons p rest ih =>
      obtain ⟨k1, w⟩ := p
      cases hk : (k1 == k) with
      | true => simp [hk]
      | false =>
          simp only [lookupField, hk] at h
          simp [List.any_cons, hk, ih (by simpa using h)]

theorem confFields_isObj (sfs : List (String × Json)) :
    ∀ v, confFields sfs v = true → isJObj v = true := by
  induction sfs with
  | nil => intro v h; simpa [confFields] using h
  | cons p rest ih =>
      intro v h
      obtain ⟨k, sv⟩ := p
      simp only [confFields, Bool.and_eq_true] at h
      exact ih v h.2

theorem conformsTo_isObj (sfs : List (String × Json)) (v : Json)
    (h : conformsTo (.obj sfs) v = true) : isJObj v = true :=
  confFields_isObj sfs v (by simpa [conformsTo] using h)

theorem conformsTo_leaf (sv v : Json) (h : isJObj sv = false) :
    conformsTo sv v = (kindOf v == kindOf sv) := by
  cases sv <;> simp_all [conformsTo, isJObj]

theorem confFields_lookup (sfs : List (String × Json)) :
    ∀ (v : Json) (k : String) (sv : Json),
    confFields sfs v = true → lookupField sfs k = some sv →
    ∃ w, jget v k = some w ∧ conformsTo sv w = true := by
  induction sfs with
  | nil => intro v k sv _ hl; simp [lookupField] at hl
  | cons p rest ih =>
      intro v k sv h hl
      obtain ⟨k1, sv1⟩ := p
      simp only [confFields, Bool.and_eq_true] at h
      obtain ⟨h1, h2⟩ := h
      cases hk : (k1 == k) with
      | true =>
          have hke : k1 = k := by simpa using hk
          subst hke
          simp only [lookupField, beq_self_eq_true, if_true] at hl
          obtain rfl : sv1 = sv := by simpa using hl
          cases hjw : jget v k1 with
          | none => rw [hjw] at h1; simp [confAt] at h1
          | some w =>
              rw [hjw] at h1
              exact ⟨w, rfl, by simpa [confAt] using h1⟩
      | false =>
          simp only [lookupField, hk, if_false] at hl
          exact ih v k sv h2 hl

theorem jwfF_parts (k : String) (v : Json) (rest : List (String × Json))
    (h : jwfF ((k, v) :: rest) = true) :
    (rest.any (fun p => p.1 == k)) = false ∧ jwf v = true ∧ jwfF rest = true := by
  simp only [jwfF, Bool.and_eq_true, Bool.not_eq_true'] at h
  exact ⟨h.1.1, h.1.2, h.2⟩

theorem jwfF_lookup (sfs : List (String × Json)) :
    ∀ (k : String) (sv : Json), jwfF sfs = true → lookupField sfs k = some sv →
    jwf sv = true := by
  induction sfs with
  | nil => intro k sv _ hl; simp [lookupField] at hl
  | cons p rest ih =>
      intro k sv h hl
      obtain ⟨k1, sv1⟩ := p
      obtain ⟨_, hv1, hrest⟩ := jwfF_parts k1 sv1 rest h
      cases hk : (k1 == k) with
      | true =>
          simp only [lookupField, hk, if_true] at hl
          obtain rfl : sv1 = sv := by simpa using hl
          exact hv1
      | false =>
          simp only [lookupField, hk, if_false] at hl
          exact ih k sv hrest hl

theorem confFields_jset (sfs : List (String × Json)) :
    ∀ (t : Json) (k : String) (v : Json),
    jwfF sfs = true → confFields sfs t = true →
    (∀ sv, lookupField sfs k = some sv → conformsTo sv v = true) →
    confFields sfs (jset t k v) = true := by
  induction sfs with
  | nil =>
      intro t k v _ ht _
      simp only [confFields] at ht ⊢
      exact isJObj_jset t k v ht
  | cons p rest ih =>
      intro t k v hwf ht hv
      obtain ⟨k1, sv1⟩ := p
      obtain ⟨hnot, _, hrest⟩ := jwfF_parts k1 sv1 rest hwf
      simp only [confFields, Bool.and_eq_true] at ht ⊢
      obtain ⟨h1, h2⟩ := ht
      obtain ⟨tf, rfl⟩ := isJObj_ex t (confFields_isObj rest t h2)
      constructor
      · cases hk : (k1 == k) with
        | true =>
            have hke : k1 = k := by simpa using hk
            subst hke
            have hcv := hv sv1 (by simp [lookupField])
            simp [jset, jget, lookupField_setField_self, confAt, hcv]
        | false =>
            have heq : lookupField (setField tf k v) k1 = lookupField tf k1 :=
              lookupField_setField_ne tf k k1 v hk
            simpa [jset, jget, heq] using h1
      · refine ih (.obj tf) k v hrest h2 (fun sv hsv => ?_)
        cases hk : (k1 == k) with
        | true =>
            have hke : k1 = k := by simpa using hk
            subst hke
            rw [lookupField_mem_any rest k1 sv hsv] at hnot
            exact absurd hnot (by simp)
        | false => exact hv sv (by simp [lookupField, hk, hsv])

theorem compatAt_leaf_conforms (sv rv : Json) (hro : isJObj rv = false)
    (h : compatAt (some sv) rv = true) : conformsTo sv rv = true := by
  cases sv <;> cases rv <;> simp_all [compatAt, conformsTo, kindOf, isJObj, beq_iff_eq]

theorem mergeStep_nonobj (t : Json) (k : String) (rv : Json) (h : isJObj rv = false) :
    mergeStep t k rv = jset t k rv := by
  cases rv <;> simp_all [mergeStep, isJObj]

/-- Deep-merging a schema-compatible raw object into a schema-conforming
target yields a schema-conforming result (strong induction on the size of
the raw field list, to cover the nested recursion of mergeDeep). -/
theorem mergeObjList_conforms_aux :
    ∀ (n : Nat) (rfs : List (String × Json)) (s t : Json),
      sizeOf rfs ≤ n → jwf s = true → conformsTo s t = true → compatF s rfs = true →
      conformsTo s (mergeObjList t rfs) = true := by
  intro n
  induction n with
  | zero =>
      intro rfs s t hle hs ht hc
      exfalso
      cases rfs with
      | nil => simp at hle
      | cons a l => simp [List.cons.sizeOf_spec] at hle
  | succ n ih =>
      intro rfs s t hle hs ht hc
      match rfs with
      | [] => simpa [mergeObjList] using ht
      | (k, rv) :: rest =>
          simp only [mergeObjList]
          simp only [compatF, Bool.and_eq_true] at hc
          obtain ⟨hck, hcr⟩ := hc
          have hsz : sizeOf rest ≤ n := by
            simp only [List.cons.sizeOf_spec] at hle
            omega
          refine ih rest s (mergeStep t k rv) hsz hs ?_ hcr
          cases s with
          | null =>
              rw [conformsTo_leaf _ _ (by simp [isJObj]), kindOf_mergeStep]
              rw [conformsTo_leaf _ _ (by simp [isJObj])] at ht
              exact ht
          | bool b =>
              rw [conformsTo_leaf _ _ (by simp [isJObj]), kindOf_mergeStep]
              rw [conformsTo_leaf _ _ (by simp [isJObj])] at ht
              exact ht
          | num m =>
              rw [conformsTo_leaf _ _ (by simp [isJObj]), kindOf_mergeStep]
              rw [conformsTo_leaf _ _ (by simp [isJObj])] at ht
              exact ht
          | str s0 =>
              rw [conformsTo_leaf _ _ (by simp [isJObj]), kindOf_mergeStep]
              rw [conformsTo_leaf _ _ (by simp [isJObj])] at ht
              exact ht
          | arr xs =>
              rw [conformsTo_leaf _ _ (by simp [isJObj]), kindOf_mergeStep]
              rw [conformsTo_leaf _ _ (by simp [isJObj])] at ht
              exact ht
          | obj sfs =>
              have hwfF : jwfF sfs = true := by simpa [jwf] using hs
              have htf : confFields sfs t = true := by simpa [conformsTo] using ht
              rw [show jget (.obj sfs) k = lookupField sfs k from rfl] at hck
              show conformsTo (.obj sfs) (mergeStep t k rv) = true
              rw [show conformsTo (.obj sfs) (mergeStep t k rv)
                    = confFields sfs (mergeStep t k rv) from by simp [conformsTo]]
              by_cases hro : isJObj rv = true
              · obtain ⟨rvf, rfl⟩ := isJObj_ex rv hro
                simp only [mergeStep]
                cases hsk : lookupField sfs k with
                | none =>
                    refine confFields_jset sfs t k _ hwfF htf (fun sv hsv => ?_)
                    rw [hsk] at hsv
                    exact absurd hsv (by simp)
                | some sv =>
                    rw [hsk] at hck
                    cases sv with
                    | obj sfs2 =>
                        have hck2 : compatF (.obj sfs2) rvf = true := by
                          simpa [compatAt] using hck
                        obtain ⟨w, hw, hcw⟩ := confFields_lookup sfs t k (.obj sfs2) htf hsk
                        obtain ⟨wf, rfl⟩ := isJObj_ex w (conformsTo_isObj sfs2 w hcw)
                        have hszr : sizeOf rvf ≤ n := by
                          simp only [List.cons.sizeOf_spec, Prod.mk.sizeOf_spec,
                                     Json.obj.sizeOf_spec] at hle
                          omega
                        have hrec := ih rvf (.obj sfs2) (.obj wf) hszr
                          (jwfF_lookup sfs k (.obj sfs2) hwfF hsk) hcw hck2
                        rw [hw]
                        refine confFields_jset sfs t k _ hwfF htf (fun sv hsv => ?_)
                        rw [hsk] at hsv
                        obtain rfl : Json.obj sfs2 = sv := by simpa using hsv
                        simpa [mergeBase] using hrec
                    | null => simp [compatAt, kindOf, beq_iff_eq] at hck
                    | bool b => simp [compatAt, kindOf, beq_iff_eq] at hck
                    | num m => simp [compatAt, kindOf, beq_iff_eq] at hck
                    | str s0 => simp [compatAt, kindOf, beq_iff_eq] at hck
                    | arr ys => simp [compatAt, kindOf, beq_iff_eq] at hck
              · have hro' : isJObj rv = false := by simpa using hro
                rw [mergeStep_nonobj t k rv hro']
                refine confFields_jset sfs t k rv hwfF htf (fun sv hsv => ?_)
                rw [hsv] at hck
                exact compatAt_leaf_conforms sv rv hro' hck

theorem jwfF_mem_wf (sfs : List (String × Json)) :
    jwfF sfs = true → ∀ p ∈ sfs, jwf p.2 = true := by
  induction sfs with
  | nil => intro _ p hp; simp at hp
  | cons q rest ih =>
      intro h p hp
      obtain ⟨k1, sv1⟩ := q
      obtain ⟨_, hv1, hrest⟩ := jwfF_parts k1 sv1 rest h
      rcases List.mem_cons.mp hp with rfl | hmem
      · exact hv1
      · exact ih hrest p hmem

theorem lookupField_self_of_nodup (sfs : List (String × Json)) :
    jwfF sfs = true → ∀ p ∈ sfs, lookupField sfs p.1 = some p.2 := by
  induction sfs with
  | nil => intro _ p hp; simp at hp
  | cons q rest ih =>
      intro h p hp
      obtain ⟨k1, sv1⟩ := q
      obtain ⟨hnot, _, hrest⟩ := jwfF_parts k1 sv1 rest h
      rcases List.mem_cons.mp hp with rfl | hmem
      · simp [lookupField]
      · cases hk : (k1 == p.1) with
        | true =>
            exfalso
            have hke : k1 = p.1 := by simpa using hk
            have : rest.any (fun q => q.1 == k1) = true := by
              refine List.any_eq_true.mpr ⟨p, hmem, ?_⟩
              simp [hke]
            rw [this] at hnot
            exact absurd hnot (by simp)
        | false => simp [lookupField, hk, ih hrest p hmem]

/-- A well-formed value conforms to itself as a schema. -/
theorem conformsTo_self_aux :
    ∀ (n : Nat) (s : Json), sizeOf s ≤ n → jwf s = true → conformsTo s s = true := by
  intro n
  induction n with
  | zero =>
      intro s hle _
      exfalso
      cases s <;> simp at hle
  | succ n ih =>
      intro s hle hwf
      cases s with
      | null => simp [conformsTo]
      | bool b => simp [conformsTo]
      | num m => simp [conformsTo]
      | str s0 => simp [conformsTo]
      | arr xs => simp [conformsTo]
      | obj sfs =>
          have hwfF : jwfF sfs = true := by simpa [jwf] using hwf
          rw [show conformsTo (.obj sfs) (.obj sfs) = confFields sfs (.obj sfs) from by
            simp [conformsTo]]
          have key : ∀ (l : List (String × Json)),
              (∀ p ∈ l, lookupField sfs p.1 = some p.2) →
              (∀ p ∈ l, jwf p.2 = true ∧ sizeOf p.2 ≤ n) →
              confFields l (.obj sfs) = true := by
            intro l
            induction l with
            | nil => intro _ _; simp [confFields, isJObj]
            | cons p rest ihl =>
                intro h1 h2
                obtain ⟨k, sv⟩ := p
                simp only [confFields, Bool.and_eq_true]
                refine ⟨?_, ihl (fun q hq => h1 q (by simp [hq]))
                  (fun q hq => h2 q (by simp [hq]))⟩
                have hlk := h1 (k, sv) (by simp)
                obtain ⟨hws, hsz⟩ := h2 (k, sv) (by simp)
                rw [show jget (.obj sfs) k = lookupField sfs k from rfl, hlk]
                simpa [confAt] using ih sv hsz hws
          refine key sfs (lookupField_self_of_nodup sfs hwfF) (fun p hp => ?_)
          refine ⟨jwfF_mem_wf sfs hwfF p hp, ?_⟩
          have h1 : sizeOf p < sizeOf sfs := List.sizeOf_lt_of_mem hp
          have h2 : sizeOf p.2 < sizeOf p := by
            obtain ⟨a, b⟩ := p
            simp [Prod.mk.sizeOf_spec]
          have h3 : sizeOf (Json.obj sfs) = 1 + sizeOf sfs := by simp
          omega

theorem confFields_nonobj (sfs : List (String × Json)) (v : Json) (h : isJObj v = false) :
    confFields sfs v = false := by
  cases hc : confFields sfs v with
  | false => rfl
  | true => rw [confFields_isObj sfs v hc] at h; exact absurd h (by simp)

theorem confFields_false_of_mem (sfs : List (String × Json)) (v : Json) (k : String)
    (sv : Json) (hmem : (k, sv) ∈ sfs) (h : confAt (jget v k) sv = false) :
    confFields sfs v = false := by
  induction sfs with
  | nil => simp at hmem
  | cons q rest ih =>
      obtain ⟨k1, sv1⟩ := q
      rcases List.mem_cons.mp hmem with heq | hmem2
      · obtain ⟨rfl, rfl⟩ : k1 = k ∧ sv1 = sv := by
          constructor <;> injection heq <;> simp_all
        simp [confFields_cons_eq, h]
      · simp [confFields_cons_eq, ih hmem2]

/-- Claim C1 (amended): for every on-disk state whose raw loaded value is
schema-compatible with FallbackDefaults -- the file absent, unreadable or
invalid (the template is used), or valid JSON that is a number, a boolean,
or an object whose values along FallbackDefaults paths are non-array
objects at sections and values of the default leaf kind at leaves --
getConfig() returns normally and the merged configuration contains every
section and leaf of FallbackDefaults with a value of the expected kind.
(Unrestricted raw values falsify the claim: a null raw value makes
getConfig throw, and a null-valued section survives the merge; see the
counterexample.) -/
theorem config_merge_schema_complete (d : Disk)
    (hc : compat fallbackConfigJson (loadRawV d) = true) :
    okSat (conformsTo fallbackConfigJson) (getConfigV d) = true := by
  have hwfs : jwf fallbackConfigJson = true := by decide
  have hself : conformsTo fallbackConfigJson fallbackConfigJson = true :=
    conformsTo_self_aux (sizeOf fallbackConfigJson) fallbackConfigJson (Nat.le_refl _) hwfs
  have hgc : getConfigV d = mergeDeep fallbackConfigJson (loadRawV d) := rfl
  rw [hgc]
  cases hr : loadRawV d with
  | null => rw [hr] at hc; simp [compat] at hc
  | str s => rw [hr] at hc; simp [compat] at hc
  | arr xs => rw [hr] at hc; simp [compat] at hc
  | num m => simp [mergeDeep, okSat, hself]
  | bool b => simp [mergeDeep, okSat, hself]
  | obj rfs =>
      rw [hr] at hc
      simp only [compat] at hc
      simp only [mergeDeep, okSat]
      exact mergeObjList_conforms_aux (sizeOf rfs) rfs fallbackConfigJson fallbackConfigJson
        (Nat.le_refl _) hwfs hself hc

/-- Counterexample for C1: a settings file holding the valid JSON object
with a null facebook section yields a merged configuration whose facebook
section is null -- the FallbackDefaults leaves under facebook are gone, so
the result is not schema-complete. -/
theorem config_merge_schema_complete_cex :
    okSat (conformsTo fallbackConfigJson) (getConfigV dFacebookNull) = false := by
  decide

/-- Witness for C1 (amended): a valid settings file carrying only a
facebook section with a string pageAccessToken is schema-compatible, and
the merged configuration conforms to FallbackDefaults. -/
theorem config_merge_schema_complete_witness :
    compat fallbackConfigJson (loadRawV dGood) = true ∧
    okSat (conformsTo fallbackConfigJson) (getConfigV dGood) = true := by
  have hc : compat fallbackConfigJson (loadRawV dGood) = true := by decide
  exact ⟨hc, config_merge_schema_complete dGood hc⟩

/-! Path lemmas about the deep merge, toward claim C6. -/

theorem beqS_symm_false (a b : String) (h : (a == b) = false) : (b == a) = false := by
  have h1 : ¬(a = b) := by simpa using h
  simpa using Ne.symm h1

theorem lookupPath_single (g : List (String × Json)) (k : String) :
    lookupPath (.obj g) [k] = lookupField g k := by
  cases h : lookupField g k <;> simp [lookupPath, h]

theorem jget_mergeObjList_skip (l : List (String × Json)) :
    ∀ (tf : List (String × Json)) (k : String),
    (l.any (fun p => p.1 == k)) = false →
    jget (mergeObjList (.obj tf) l) k = lookupField tf k := by
  induction l with
  | nil => intro tf k _; simp [mergeObjList, jget]
  | cons p rest ih =>
      intro tf k hany
      obtain ⟨k1, sv⟩ := p
      simp only [List.any_cons, Bool.or_eq_false_iff] at hany
      obtain ⟨v, hv⟩ := mergeStep_obj_eq tf k1 sv
      simp only [mergeObjList]
      rw [hv, ih (setField tf k1 v) k hany.2]
      exact lookupField_setField_ne tf k1 k v (beqS_symm_false k1 k hany.1)

/-- Override direction of the deep merge: a leaf (non-object) raw value at
a path that exists in the target wins in the merged result. -/
theorem mergeOverride : ∀ (p : List String) (rfs tf : List (String × Json)) (rv : Json),
    jwfF rfs = true →
    (lookupPath (.obj tf) p).isSome = true →
    lookupPath (.obj rfs) p = some rv →
    isJObj rv = false →
    p ≠ [] →
    lookupPath (mergeObjList (.obj tf) rfs) p = some rv := by
  intro p
  induction p with
  | nil => intro _ _ _ _ _ _ _ hne; exact absurd rfl hne
  | cons k ks ihp =>
      intro rfs
      induction rfs with
      | nil =>
          intro tf rv _ _ hR _ _
          simp [lookupPath, lookupField] at hR
      | cons hd rest ihr =>
          intro tf rv hwf hT hR hNO hne
          obtain ⟨k1, rv1⟩ := hd
          obtain ⟨hnot, hwf1, hwfr⟩ := jwfF_parts k1 rv1 rest hwf
          cases hk : (k1 == k) with
          | false =>
              have hR2 : lookupPath (.obj rest) (k :: ks) = some rv := by
                simpa [lookupPath, lookupField, hk] using hR
              obtain ⟨v, hv⟩ := mergeStep_obj_eq tf k1 rv1
              simp only [mergeObjList]
              rw [hv]
              refine ihr (setField tf k1 v) rv hwfr ?_ hR2 hNO hne
              have heq : lookupField (setField tf k1 v) k = lookupField tf k :=
                lookupField_setField_ne tf k1 k v (beqS_symm_false k1 k hk)
              simpa [lookupPath, heq] using hT
          | true =>
              have hke : k1 = k := by simpa using hk
              subst hke
              have hR1 : lookupPath rv1 ks = some rv := by
                simpa [lookupPath, lookupField] using hR
              cases hw : lookupField tf k1 with
              | none =>
                  rw [show lookupPath (Json.obj tf) (k1 :: ks) = none from by
                    simp [lookupPath, hw]] at hT
                  simp at hT
              | some w =>
                  have hT1 : (lookupPath w ks).isSome = true := by
                    simpa [lookupPath, hw] using hT
                  cases ks with
                  | nil =>
                      obtain rfl : rv1 = rv := by simpa [lookupPath] using hR1
                      simp only [mergeObjList]
                      rw [mergeStep_nonobj (.obj tf) k1 rv1 hNO]
                      rw [show jset (Json.obj tf) k1 rv1 = Json.obj (setField tf k1 rv1) from rfl]
                      obtain ⟨g, hg⟩ := mergeObjList_obj_ex rest (setField tf k1 rv1)
                      rw [hg, lookupPath_single]
                      have hskip := jget_mergeObjList_skip rest (setField tf k1 rv1) k1 hnot
                      rw [hg] at hskip
                      rw [show jget (Json.obj g) k1 = lookupField g k1 from rfl] at hskip
                      rw [hskip, lookupField_setField_self]
                  | cons k2 ks2 =>
                      cases rv1 with
                      | null => simp [lookupPath] at hR1
                      | bool b => simp [lookupPath] at hR1
                      | num m => simp [lookupPath] at hR1
                      | str s0 => simp [lookupPath] at hR1
                      | arr ys => simp [lookupPath] at hR1
                      | obj rvf =>
                          cases w with
                          | null => simp [lookupPath] at hT1
                          | bool b => simp [lookupPath] at hT1
                          | num m => simp [lookupPath] at hT1
                          | str s0 => simp [lookupPath] at hT1
                          | arr ys => simp [lookupPath] at hT1
                          | obj wf =>
                              have hrec := ihp rvf wf rv (by simpa [jwf] using hwf1)
                                hT1 hR1 hNO (by simp)
                              simp only [mergeObjList, mergeStep]
                              rw [show jget (Json.obj tf) k1 = lookupField tf k1 from rfl, hw]
                              rw [show mergeBase (some (Json.obj wf)) = Json.obj wf from rfl]
                              rw [show jset (Json.obj tf) k1
                                    (mergeObjList (Json.obj wf) rvf)
                                  = Json.obj (setField tf k1
                                    (mergeObjList (Json.obj wf) rvf)) from rfl]
                              obtain ⟨g, hg⟩ := mergeObjList_obj_ex rest
                                (setField tf k1 (mergeObjList (Json.obj wf) rvf))
                              rw [hg]
                              have hskip := jget_mergeObjList_skip rest
                                (setField tf k1 (mergeObjList (Json.obj wf) rvf)) k1 hnot
                              rw [hg] at hskip
                              rw [show jget (Json.obj g) k1 = lookupField g k1 from rfl] at hskip
                              simp only [lookupPath]
                              rw [hskip, lookupField_setField_self]
                              exact hrec

/-- Preservation direction of the deep merge: a default value at a path
the raw data leaves absent (falling off at an object key, never meeting a
non-object on the way) survives the merge unchanged. -/
theorem mergePreserve : ∀ (p : List String) (rfs tf : List (String × Json)) (dv : Json),
    jwfF rfs = true →
    lookupPath (.obj tf) p = some dv →
    pathAbsentCompat (.obj rfs) p = true →
    lookupPath (mergeObjList (.obj tf) rfs) p = some dv := by
  intro p
  induction p with
  | nil => intro rfs tf dv _ _ hPA; simp [pathAbsentCompat] at hPA
  | cons k ks ihp =>
      intro rfs
      induction rfs with
      | nil => intro tf dv _ hT _; simpa [mergeObjList] using hT
      | cons hd rest ihr =>
          intro tf dv hwf hT hPA
          obtain ⟨k1, rv1⟩ := hd
          obtain ⟨hnot, hwf1, hwfr⟩ := jwfF_parts k1 rv1 rest hwf
          cases hk : (k1 == k) with
          | false =>
              have hPA2 : pathAbsentCompat (.obj rest) (k :: ks) = true := by
                simpa [pathAbsentCompat, lookupField, hk] using hPA
              obtain ⟨v, hv⟩ := mergeStep_obj_eq tf k1 rv1
              simp only [mergeObjList]
              rw [hv]
              refine ihr (setField tf k1 v) dv hwfr ?_ hPA2
              have heq : lookupField (setField tf k1 v) k = lookupField tf k :=
                lookupField_setField_ne tf k1 k v (beqS_symm_false k1 k hk)
              simpa [lookupPath, heq] using hT
          | true =>
              have hke : k1 = k := by simpa using hk
              subst hke
              have hPA1 : pathAbsentCompat rv1 ks = true := by
                simpa [pathAbsentCompat, lookupField] using hPA
              cases hw : lookupField tf k1 with
              | none =>
                  rw [show lookupPath (Json.obj tf) (k1 :: ks) = none from by
                    simp [lookupPath, hw]] at hT
                  simp at hT
              | some w =>
                  have hT1 : lookupPath w ks = some dv := by
                    simpa [lookupPath, hw] using hT
                  cases rv1 with
                  | null => cases ks <;> simp [pathAbsentCompat] at hPA1
                  | bool b => cases ks <;> simp [pathAbsentCompat] at hPA1
                  | num m => cases ks <;> simp [pathAbsentCompat] at hPA1
                  | str s0 => cases ks <;> simp [pathAbsentCompat] at hPA1
                  | arr ys => cases ks <;> simp [pathAbsentCompat] at hPA1
                  | obj rvf =>
                      cases ks with
                      | nil => simp [pathAbsentCompat] at hPA1
                      | cons k2 ks2 =>
                          cases w with
                          | null => simp [lookupPath] at hT1
                          | bool b => simp [lookupPath] at hT1
                          | num m => simp [lookupPath] at hT1
                          | str s0 => simp [lookupPath] at hT1
                          | arr ys => simp [lookupPath] at hT1
                          | obj wf =>
                              have hrec := ihp rvf wf dv (by simpa [jwf] using hwf1)
                                hT1 hPA1
                              simp only [mergeObjList, mergeStep]
                              rw [show jget (Json.obj tf) k1 = lookupField tf k1 from rfl, hw]
                              rw [show mergeBase (some (Json.obj wf)) = Json.obj wf from rfl]
                              rw [show jset (Json.obj tf) k1
                                    (mergeObjList (Json.obj wf) rvf)
                                  = Json.obj (setField tf k1
                                    (mergeObjList (Json.obj wf) rvf)) from rfl]
                              obtain ⟨g, hg⟩ := mergeObjList_obj_ex rest
                                (setField tf k1 (mergeObjList (Json.obj wf) rvf))
                              rw [hg]
                              have hskip := jget_mergeObjList_skip rest
                                (setField tf k1 (mergeObjList (Json.obj wf) rvf)) k1 hnot
                              rw [hg] at hskip
                              rw [show jget (Json.obj g) k1 = lookupField g k1 from rfl] at hskip
                              simp only [lookupPath]
                              rw [hskip, lookupField_setField_self]
                              exact hrec

/-- Claim C6 (amended): deep-merge precedence in getConfig().  (i) For
every dot-path present in FallbackDefaults whose raw value is a leaf
(primitive or array -- such values replace the default wholesale, while
non-array objects merge recursively), the merged result at that path is
the raw value.  (ii) For every leaf path of FallbackDefaults that the raw
data leaves absent without clobbering it -- resolution in the raw data
falls off at a missing object key and never meets a non-object value on
the way -- the merged result equals the default.  (The no-clobbering
condition is necessary: a raw value of {app: 5} erases the default at
app.name; see the counterexample.) -/
theorem deep_merge_precedence :
    (∀ (d : Disk) (p : List String) (rv : Json),
        jwf (loadRawV d) = true →
        (lookupPath fallbackConfigJson p).isSome = true →
        lookupPath (loadRawV d) p = some rv →
        isJObj rv = false → p ≠ [] →
        okPath (getConfigV d) p rv) ∧
    (∀ (d : Disk) (p : List String) (dv : Json),
        jwf (loadRawV d) = true →
        lookupPath fallbackConfigJson p = some dv →
        pathAbsentCompat (loadRawV d) p = true →
        okPath (getConfigV d) p dv) := by
  constructor
  · intro d p rv hwf hT hR hNO hne
    cases hr : loadRawV d with
    | null =>
        rw [hr] at hR
        cases p with
        | nil => exact absurd rfl hne
        | cons k ks => simp [lookupPath] at hR
    | bool b =>
        rw [hr] at hR
        cases p with
        | nil => exact absurd rfl hne
        | cons k ks => simp [lookupPath] at hR
    | num m =>
        rw [hr] at hR
        cases p with
        | nil => exact absurd rfl hne
        | cons k ks => simp [lookupPath] at hR
    | str s0 =>
        rw [hr] at hR
        cases p with
        | nil => exact absurd rfl hne
        | cons k ks => simp [lookupPath] at hR
    | arr xs =>
        rw [hr] at hR
        cases p with
        | nil => exact absurd rfl hne
        | cons k ks => simp [lookupPath] at hR
    | obj rfs =>
        have hok : getConfigV d = .ok (mergeObjList fallbackConfigJson rfs) := by
          rw [show getConfigV d = mergeDeep fallbackConfigJson (loadRawV d) from rfl, hr]
          rfl
        rw [hr] at hR hwf
        rw [hok]
        show lookupPath (mergeObjList fallbackConfigJson rfs) p = some rv
        exact mergeOverride p rfs fallbackConfigFields rv (by simpa [jwf] using hwf)
          hT hR hNO hne
  · intro d p dv hwf hT hPA
    cases hr : loadRawV d with
    | null => rw [hr] at hPA; cases p <;> simp [pathAbsentCompat] at hPA
    | bool b => rw [hr] at hPA; cases p <;> simp [pathAbsentCompat] at hPA
    | num m => rw [hr] at hPA; cases p <;> simp [pathAbsentCompat] at hPA
    | str s0 => rw [hr] at hPA; cases p <;> simp [pathAbsentCompat] at hPA
    | arr xs => rw [hr] at hPA; cases p <;> simp [pathAbsentCompat] at hPA
    | obj rfs =>
        have hok : getConfigV d = .ok (mergeObjList fallbackConfigJson rfs) := by
          rw [show getConfigV d = mergeDeep fallbackConfigJson (loadRawV d) from rfl, hr]
          rfl
        rw [hr] at hPA hwf
        rw [hok]
        show lookupPath (mergeObjList fallbackConfigJson rfs) p = some dv
        exact mergePreserve p rfs fallbackConfigFields dv (by simpa [jwf] using hwf) hT hPA

/-- Counterexample for C6: with the raw file {app: 5}, the dot-path
app.name is present only in FallbackDefaults (the raw data has no such
path), yet the merged result carries nothing at app.name -- the raw
number overwrote the whole app section -- contradicting the unconditional
claim that paths present only in FallbackDefaults keep their default. -/
theorem deep_merge_precedence_cex :
    lookupPath (loadRawV dAppNum) ["app", "name"] = none ∧
    lookupPath fallbackConfigJson ["app", "name"] = some (.str "FB Page Bot") ∧
    okSat (fun m => (lookupPath m ["app", "name"]).isNone) (getConfigV dAppNum) = true :=
  ⟨rfl, rfl, rfl⟩

/-- Witness for C6 (amended): with the raw file of dGood, the overridden
leaf facebook.pageAccessToken equals the raw value in the merged result,
and the untouched default bot.prefix survives. -/
theorem deep_merge_precedence_witness :
    okPath (getConfigV dGood) ["facebook", "pageAccessToken"] (.str "TOKEN") ∧
    okPath (getConfigV dGood) ["bot", "prefix"] (.str "/") := by
  constructor
  · exact deep_merge_precedence.1 dGood ["facebook", "pageAccessToken"] (.str "TOKEN")
      (by decide) (by decide) (by rfl) (by decide) (by decide)
  · exact deep_merge_precedence.2 dGood ["bot", "prefix"] (.str "/")
      (by decide) (by rfl) (by decide)

/-! Helper lemmas toward claim C7 (getMissingConfigKeys). -/

theorem jget_none_of_falsy (w : Json) (hw : isFalsy w = true) (k : String) :
    jget w k = none := by
  cases w with
  | null => rfl
  | bool b => rfl
  | num n => rfl
  | arr xs => simp [isFalsy] at hw
  | obj fs => simp [isFalsy] at hw
  | str s =>
      have hs : s = "" := by simpa [isFalsy] using hw
      subst hs
      cases hci : canonIdx k with
      | none => simp [jget, hci]
      | some i =>
          simp only [jget, hci]
          rw [show ("" : String).toList = [] from rfl]
          simp

theorem jsLeafMissing_none (w : Json) (hj : ∀ k, jget w k = none) :
    ∀ p, p ≠ [] → jsLeafMissing w p = true := by
  intro p hp
  cases p with
  | nil => exact absurd rfl hp
  | cons k ks =>
      cases ks with
      | nil => simp [jsLeafMissing, hj k]
      | cons k2 ks2 => simp [jsLeafMissing, hj k]

theorem leafPathsF_ne_nil (tfs : List (String × Json)) : ∀ p ∈ leafPathsF tfs, p ≠ [] := by
  induction tfs with
  | nil => intro p hp; simp [leafPathsF] at hp
  | cons q rest ih =>
      intro p hp
      obtain ⟨k, tv⟩ := q
      cases tv with
      | obj tfs2 =>
          simp only [leafPathsF, List.mem_append, List.mem_map] at hp
          rcases hp with ⟨q2, _, rfl⟩ | hp2
          · simp
          · exact ih p hp2
      | null =>
          simp only [leafPathsF, List.mem_append] at hp
          rcases hp with hp1 | hp2
          · simp at hp1; subst hp1; simp
          · exact ih p hp2
      | bool b =>
          simp only [leafPathsF, List.mem_append] at hp
          rcases hp with hp1 | hp2
          · simp at hp1; subst hp1; simp
          · exact ih p hp2
      | num n =>
          simp only [leafPathsF, List.mem_append] at hp
          rcases hp with hp1 | hp2
          · simp at hp1; subst hp1; simp
          · exact ih p hp2
      | str s0 =>
          simp only [leafPathsF, List.mem_append] at hp
          rcases hp with hp1 | hp2
          · simp at hp1; subst hp1; simp
          · exact ih p hp2
      | arr xs =>
          simp only [leafPathsF, List.mem_append] at hp
          rcases hp with hp1 | hp2
          · simp at hp1; subst hp1; simp
          · exact ih p hp2

theorem string_append_key_ne_empty (pfx k : String) :
    ((pfx ++ "." ++ k) == "") = false := by
  have h : ¬(pfx ++ "." ++ k = "") := by
    intro h
    have h2 := congrArg String.length h
    simp [String.length_append] at h2
    exact absurd h2.1.2 (by decide)
  simpa using h

theorem joinP_cons (pfx k : String) (p : List String) (hk : (k == "") = false)
    (hp : p ≠ []) :
    joinP (if pfx == "" then k else pfx ++ "." ++ k) p = joinP pfx (k :: p) := by
  have hd : dotJoin (k :: p) = k ++ "." ++ dotJoin p := by
    cases p with
    | nil => exact absurd rfl hp
    | cons a l => simp [dotJoin]
  cases hpfx : (pfx == "") with
  | true =>
      have : pfx = "" := by simpa using hpfx
      subst this
      simp [joinP, hk, hd]
  | false =>
      have hne : ((pfx ++ "." ++ k) == "") = false := string_append_key_ne_empty pfx k
      simp only [joinP, hpfx, hne, Bool.false_eq_true, if_false]
      rw [hd]
      simp [String.append_assoc]

theorem checkMissing_cons_leaf (k : String) (tv : Json) (rest : List (String × Json))
    (obj : Json) (pfx : String) (htv : isJObj tv = false) (hobj : isFalsy obj = false) :
    checkMissing ((k, tv) :: rest) obj pfx
      = (match checkMissing rest obj pfx with
         | .error e => .error e
         | .ok ms => .ok (if jsLeafMissing obj [k]
             then (if pfx == "" then k else pfx ++ "." ++ k) :: ms else ms)) := by
  cases tv with
  | obj tfs => exact absurd htv (by simp [isJObj])
  | null =>
      simp only [checkMissing, hobj, Bool.false_eq_true, if_false]
      cases hjw : jget obj k with
      | none => simp [jsLeafMissing, hjw]
      | some w => cases w <;> simp [jsLeafMissing, hjw]
  | bool b =>
      simp only [checkMissing, hobj, Bool.false_eq_true, if_false]
      cases hjw : jget obj k with
      | none => simp [jsLeafMissing, hjw]
      | some w => cases w <;> simp [jsLeafMissing, hjw]
  | num n =>
      simp only [checkMissing, hobj, Bool.false_eq_true, if_false]
      cases hjw : jget obj k with
      | none => simp [jsLeafMissing, hjw]
      | some w => cases w <;> simp [jsLeafMissing, hjw]
  | str s0 =>
      simp only [checkMissing, hobj, Bool.false_eq_true, if_false]
      cases hjw : jget obj k with
      | none => simp [jsLeafMissing, hjw]
      | some w => cases w <;> simp [jsLeafMissing, hjw]
  | arr xs =>
      simp only [checkMissing, hobj, Bool.false_eq_true, if_false]
      cases hjw : jget obj k with
      | none => simp [jsLeafMissing, hjw]
      | some w => cases w <;> simp [jsLeafMissing, hjw]

theorem leafPathsF_cons_leaf (k : String) (tv : Json) (rest : List (String × Json))
    (htv : isJObj tv = false) :
    leafPathsF ((k, tv) :: rest) = [[k]] ++ leafPathsF rest := by
  cases tv <;> simp_all [leafPathsF, isJObj]

theorem checkMissing_obj_assemble
    (k pfx : String) (tfs rest : List (String × Json)) (obj child : Json)
    (hkne : (k == "") = false)
    (hrec1 : checkMissing tfs child (if pfx == "" then k else pfx ++ "." ++ k)
      = .ok (((leafPathsF tfs).filter (fun p => jsLeafMissing child p)).map
          (joinP (if pfx == "" then k else pfx ++ "." ++ k))))
    (hrec2 : checkMissing rest obj pfx
      = .ok (((leafPathsF rest).filter (fun p => jsLeafMissing obj p)).map (joinP pfx)))
    (hbridge : ∀ p, p ≠ [] → jsLeafMissing obj (k :: p) = jsLeafMissing child p) :
    (match checkMissing tfs child (if pfx == "" then k else pfx ++ "." ++ k) with
     | .error e => Except.error e
     | .ok ms =>
         (match checkMissing rest obj pfx with
          | .error e => Except.error e
          | .ok ms2 => Except.ok (ms ++ ms2)))
      = .ok (((leafPathsF ((k, Json.obj tfs) :: rest)).filter
          (fun p => jsLeafMissing obj p)).map (joinP pfx)) := by
  rw [hrec1, hrec2]
  show Except.ok _ = _
  congr 1
  rw [show leafPathsF ((k, Json.obj tfs) :: rest)
        = (leafPathsF tfs).map (fun p => k :: p) ++ leafPathsF rest from by simp [leafPathsF]]
  rw [List.filter_append, List.map_append]
  congr 1
  rw [List.filter_map, List.map_map]
  rw [show List.filter ((fun p => jsLeafMissing obj p) ∘ fun p => k :: p) (leafPathsF tfs)
        = List.filter (fun p => jsLeafMissing child p) (leafPathsF tfs) from
    List.filter_congr (fun p hp => by
      have hpne := leafPathsF_ne_nil tfs p hp
      simpa [Function.comp] using hbridge p hpne)]
  refine List.map_congr_left (fun p hp => ?_)
  have hpne := leafPathsF_ne_nil tfs p (List.mem_of_mem_filter hp)
  simpa [Function.comp] using joinP_cons pfx k p hkne hpne

/-- The check helper returns exactly the dot-joined leaf paths of the
template whose raw value is empty, null or absent, in template order,
for every non-falsy object to check against (strong induction on the
template size, to cover the nested recursion of check). -/
theorem checkMissing_spec_aux :
    ∀ (n : Nat) (tfields : List (String × Json)) (obj : Json) (pfx : String),
      sizeOf tfields ≤ n →
      noEmptyKeysF tfields = true →
      isFalsy obj = false →
      checkMissing tfields obj pfx
        = .ok (((leafPathsF tfields).filter (fun p => jsLeafMissing obj p)).map (joinP pfx)) := by
  intro n
  induction n with
  | zero =>
      intro tf obj pfx hle _ _
      exfalso
      cases tf with
      | nil => simp at hle
      | cons a l => simp [List.cons.sizeOf_spec] at hle
  | succ n ih =>
      intro tfields obj pfx hle hnk hobj
      cases tfields with
      | nil => simp [checkMissing, leafPathsF]
      | cons hd rest =>
          obtain ⟨k, tv⟩ := hd
          have hszr : sizeOf rest ≤ n := by
            simp only [List.cons.sizeOf_spec] at hle; omega
          have hnn : isNullJ obj = false := by
            cases obj <;> simp_all [isFalsy, isNullJ]
          by_cases hto : isJObj tv = true
          · obtain ⟨tfs, rfl⟩ := isJObj_ex tv hto
            have hp3 : (k == "") = false ∧ noEmptyKeysF tfs = true ∧
                noEmptyKeysF rest = true := by
              simp only [noEmptyKeysF, Bool.and_eq_true, Bool.not_eq_true'] at hnk
              exact ⟨hnk.1.1, hnk.1.2, hnk.2⟩
            have hkne : (k == "") = false := hp3.1
            have hnkr : noEmptyKeysF rest = true := hp3.2.2
            have hsztfs : sizeOf tfs ≤ n := by
              simp only [List.cons.sizeOf_spec, Prod.mk.sizeOf_spec,
                         Json.obj.sizeOf_spec] at hle
              omega
            have hnk2 : noEmptyKeysF tfs = true := hp3.2.1
            simp only [checkMissing, hnn, Bool.false_eq_true, if_false]
            cases hjw : jget obj k with
            | none =>
                exact checkMissing_obj_assemble k pfx tfs rest obj (Json.obj []) hkne
                  (ih tfs (Json.obj []) _ hsztfs hnk2 (by simp [isFalsy]))
                  (ih rest obj pfx hszr hnkr hobj)
                  (fun p hp => by
                    cases p with
                    | nil => exact absurd rfl hp
                    | cons q qs =>
                        rw [show jsLeafMissing (Json.obj []) (q :: qs) = true from
                          jsLeafMissing_none (Json.obj []) (fun _ => rfl) _ (by simp)]
                        simp [jsLeafMissing, hjw])
            | some w =>
                cases hfw : isFalsy w with
                | true =>
                    simp only [hfw, eq_self_iff_true, if_true]
                    exact checkMissing_obj_assemble k pfx tfs rest obj (Json.obj []) hkne
                      (ih tfs (Json.obj []) _ hsztfs hnk2 (by simp [isFalsy]))
                      (ih rest obj pfx hszr hnkr hobj)
                      (fun p hp => by
                        cases p with
                        | nil => exact absurd rfl hp
                        | cons q qs =>
                            rw [show jsLeafMissing (Json.obj []) (q :: qs) = true from
                              jsLeafMissing_none (Json.obj []) (fun _ => rfl) _ (by simp)]
                            rw [show jsLeafMissing obj (k :: q :: qs)
                                = jsLeafMissing w (q :: qs) from by simp [jsLeafMissing, hjw]]
                            exact jsLeafMissing_none w (jget_none_of_falsy w hfw) _ (by simp))
                | false =>
                    simp only [hfw, Bool.false_eq_true, if_false]
                    exact checkMissing_obj_assemble k pfx tfs rest obj w hkne
                      (ih tfs w _ hsztfs hnk2 hfw)
                      (ih rest obj pfx hszr hnkr hobj)
                      (fun p hp => by
                        cases p with
                        | nil => exact absurd rfl hp
                        | cons q qs => simp [jsLeafMissing, hjw])
          · have htv : isJObj tv = false := by simpa using hto
            have hp2 : (k == "") = false ∧ noEmptyKeysF rest = true := by
              cases tv <;> simp only [isJObj] at htv <;>
                simp only [noEmptyKeysF, Bool.and_eq_true, Bool.not_eq_true'] at hnk <;>
                exact ⟨hnk.1.1, hnk.2⟩
            have hnkr : noEmptyKeysF rest = true := hp2.2
            rw [checkMissing_cons_leaf k tv rest obj pfx htv hobj]
            rw [ih rest obj pfx hszr hnkr hobj]
            rw [leafPathsF_cons_leaf k tv rest htv]
            rw [List.filter_append, List.map_append]
            cases hm : jsLeafMissing obj [k] with
            | true => simp [hm, List.filter, joinP, dotJoin]
            | false => simp [hm, List.filter, joinP, dotJoin]

/-- C7: for every raw on-disk configuration object, getMissingConfigKeys
returns exactly the dot-separated paths of the MinimalTemplate leaf keys
whose raw value is the empty string, null, or absent (recursing into
nested template objects even when the section is absent from the raw
data), and no path from FallbackDefaults-only sections: the result is
computed from minimalTemplateFields alone. -/
theorem missing_keys_exact (d : Disk) (hobj : isJObj (loadRawV d) = true) :
    getMissingV d = .ok (getMissingSpec (loadRawV d)) := by
  have hfalsy : isFalsy (loadRawV d) = false := by
    cases h : loadRawV d <;> simp_all [isJObj, isFalsy]
  have hspec := checkMissing_spec_aux (sizeOf minimalTemplateFields)
    minimalTemplateFields (loadRawV d) "" (le_refl _)
    (by simp [noEmptyKeysF, minimalTemplateFields]) hfalsy
  have hg : getMissingV d = checkMissing minimalTemplateFields (loadRawV d) "" := rfl
  rw [hg, hspec, getMissingSpec]
  exact congrArg Except.ok (List.map_congr_left (fun p hp => by simp [joinP]))

theorem missing_keys_exact_witness :
    isJObj (loadRawV dGood) = true ∧
      getMissingV dGood
        = .ok ["app.name", "app.version", "app.author",
               "facebook.pageId", "facebook.appSecret", "server.webhookPath"] := by
  refine ⟨rfl, ?_⟩
  rw [missing_keys_exact dGood rfl]
  simp [getMissingSpec, leafPathsF, minimalTemplateFields, jsLeafMissing,
        dotJoin, dGood, loadRawV, loadConfigRaw, ensureConfigFile, jget,
        lookupField]

end BotPage
